import Mathlib

/-!
Verification of the taskdoit task-list application.

The JavaScript sources (src/js/editor.js, src/js/app.js, src/js/tasks.js)
are shallowly embedded below.  DOM trees are modelled by an abstract
parsed-HTML tree type (`HNode`/`HForest`), the browser `Date` constructor
by an explicit proleptic-Gregorian normalization, JSON values by `JValue`,
and the timer-driven UI handlers by an explicit transition system over
`SysState`.  Nondeterministic inputs (generated ids, the current time,
DOM click targets) are passed as explicit parameters.
-/

namespace Taskdoit

/-! ### Characters and strings

JavaScript string primitives (`trim`, `\s`, `padStart`, `String(n)`,
`Number(digits)`, `toLocaleLowerCase`, `slice`) are modelled over
`List Char`. -/

/-- The JavaScript whitespace set: the characters matched by `\s` and
removed by `String.prototype.trim`. -/
def jsSpaceChars : List Char :=
  ['\t', '\n', '\u000B', '\u000C', '\r', ' ', '\u00A0', '\u1680',
   '\u2000', '\u2001', '\u2002', '\u2003', '\u2004', '\u2005', '\u2006',
   '\u2007', '\u2008', '\u2009', '\u200A', '\u2028', '\u2029', '\u202F',
   '\u205F', '\u3000', '\uFEFF']

def isJsSpace (c : Char) : Bool := decide (c ∈ jsSpaceChars)

/-- `String.prototype.trim` on a character list. -/
def trimChars (cs : List Char) : List Char :=
  ((cs.dropWhile isJsSpace).reverse.dropWhile isJsSpace).reverse

/-- `String.prototype.trim`. -/
def jsTrim (s : String) : String := ⟨trimChars s.data⟩

def isAsciiDigit (c : Char) : Bool := '0' ≤ c ∧ c ≤ '9'

/-- The decimal digit character for `d < 10`. -/
def digitChar (d : Nat) : Char := Char.ofNat (48 + d)

def digitVal (c : Char) : Nat := c.toNat - 48

/-- Decimal rendering of a natural number, accumulator style (the digits
of `n` are prepended to `acc`).  `fuel` bounds the recursion structurally
so the function evaluates inside the kernel; `n + 1` digits always
suffice. -/
def natDigitsAux (fuel n : Nat) (acc : List Char) : List Char :=
  match fuel with
  | 0 => acc
  | fuel + 1 =>
    if n < 10 then digitChar n :: acc
    else natDigitsAux fuel (n / 10) (digitChar (n % 10) :: acc)

def natDigits (n : Nat) : List Char := natDigitsAux (n + 1) n []

/-- JavaScript `String(n)` for a natural number. -/
def natToString (n : Nat) : String := ⟨natDigits n⟩

/-- JavaScript `String(i)` for an integer. -/
def intToString (i : Int) : String :=
  if i < 0 then "-" ++ natToString (-i).toNat else natToString i.toNat

/-- Value of a decimal digit list read left to right onto accumulator `a`
(the semantics of JavaScript `Number` on an all-digit string). -/
def digitsVal (cs : List Char) (a : Nat) : Nat :=
  match cs with
  | [] => a
  | c :: rest => digitsVal rest (10 * a + digitVal c)

def digitsToNat (cs : List Char) : Nat := digitsVal cs 0

/-- `String.prototype.padStart(len, c)` on a character list. -/
def padStartChars (cs : List Char) (len : Nat) (c : Char) : List Char :=
  List.replicate (len - cs.length) c ++ cs

def padStart (s : String) (len : Nat) (c : Char) : String :=
  ⟨padStartChars s.data len c⟩

/-- `toLocaleLowerCase`, modelled as per-character lowercasing. -/
def toLowerKey (s : String) : String := ⟨s.data.map Char.toLower⟩

def toUpperStr (s : String) : String := ⟨s.data.map Char.toUpper⟩

def toLowerStr (s : String) : String := ⟨s.data.map Char.toLower⟩

/-- `replace(/\s+/g, " ")`: each maximal whitespace run becomes one
space.  `inRun` records whether the previous character was part of the
current whitespace run. -/
def collapseWsAux : Bool → List Char → List Char
  | _, [] => []
  | inRun, c :: cs =>
    if isJsSpace c then
      if inRun then collapseWsAux true cs else ' ' :: collapseWsAux true cs
    else c :: collapseWsAux false cs

def collapseWs (cs : List Char) : List Char := collapseWsAux false cs

/-- The leading digit run and the remainder: `(takeWhile, dropWhile)` on
ASCII digits.  An anchored regex group `\d{a,b}` followed by a mandatory
non-digit (or end) matches exactly when this leading run has length in
`[a, b]`. -/
def splitDigits (cs : List Char) : List Char × List Char :=
  (cs.takeWhile isAsciiDigit, cs.dropWhile isAsciiDigit)

/-! ### JavaScript `Date` model and the date utilities of app.js

`new Date(year, monthIndex, day)` resolves its arguments against the
proleptic Gregorian calendar: a year argument in `0..99` is first mapped
to `1900..1999`, the month index is normalized into `0..11` carrying into
the year, and an out-of-range day is normalized by walking across month
boundaries.  `JsDate` records the components the source reads back via
`getFullYear()` / `getMonth()` / `getDate()`. -/

structure JsDate where
  fullYear : Int
  monthIndex : Int
  dayOfMonth : Int
  deriving DecidableEq, Repr

def isLeapYear (y : Int) : Bool :=
  y % 4 = 0 && (y % 100 != 0 || y % 400 = 0)

/-- Length of month `m` (1-based) of year `y` in the proleptic Gregorian
calendar. -/
def daysInMonth (y m : Int) : Int :=
  if m = 2 then (if isLeapYear y then 29 else 28)
  else if m = 4 || m = 6 || m = 9 || m = 11 then 30
  else 31

/-- Day-of-month normalization: starting from month `m` (kept in `1..12`)
of year `y`, walk month boundaries until the day number lies inside the
month.  `fuel` bounds the walk; it is ample for every argument the
embedded code produces (day numbers are parsed from at most two digits,
so at most five steps are ever taken). -/
def normDays (fuel : Nat) (y m d : Int) : Int × Int × Int :=
  match fuel with
  | 0 => (y, m, d)
  | fuel + 1 =>
    if d < 1 then
      let py := if m = 1 then y - 1 else y
      let pm := if m = 1 then (12 : Int) else m - 1
      normDays fuel py pm (d + daysInMonth py pm)
    else if d > daysInMonth y m then
      let ny := if m = 12 then y + 1 else y
      let nm := if m = 12 then (1 : Int) else m + 1
      normDays fuel ny nm (d - daysInMonth y m)
    else (y, m, d)

/-- `new Date(year, monthIndex, day)`, reduced to the calendar components
read back by the source. -/
def jsMakeDate (year monthIndex day : Int) : JsDate :=
  let yearAdj := if 0 ≤ year ∧ year ≤ 99 then year + 1900 else year
  let yBase := yearAdj + (monthIndex - monthIndex % 12) / 12
  let mBase := monthIndex % 12 + 1
  let r := normDays 300 yBase mBase day
  ⟨r.1, r.2.1 - 1, r.2.2⟩

/-- `isValidDateParts` (src/js/app.js): build
`new Date(year, month - 1, day)` and require that the year, month and day
read back unchanged, rejecting dates the constructor silently
normalized. -/
def isValidDateParts (year month day : Int) : Bool :=
  jsMakeDate year (month - 1) day = ⟨year, month - 1, day⟩

/-- `toIsoDate` (src/js/app.js): zero-padded `YYYY-MM-DD`. -/
def toIsoDate (year month day : Int) : String :=
  padStart (intToString year) 4 '0' ++ "-" ++ padStart (intToString month) 2 '0'
    ++ "-" ++ padStart (intToString day) 2 '0'

/-- `toIsoDateFromLocalDate` (src/js/app.js): read the components of a
`Date` back into zero-padded ISO form. -/
def toIsoDateFromLocalDate (date : JsDate) : String :=
  toIsoDate date.fullYear (date.monthIndex + 1) date.dayOfMonth

/-- The anchored regex `^(\d{4})-(\d{2})-(\d{2})$`: three digit groups of
exact lengths 4, 2, 2 separated by hyphens.  Greedy digit groups followed
by a mandatory non-digit are equivalent to taking the maximal leading
digit run and checking its length. -/
def matchIso (cs : List Char) : Option (Nat × Nat × Nat) :=
  let (g1, r1) := splitDigits cs
  if g1.length = 4 then
    match r1 with
    | '-' :: r2 =>
      let (g2, r3) := splitDigits r2
      if g2.length = 2 then
        match r3 with
        | '-' :: r4 =>
          let (g3, r5) := splitDigits r4
          if g3.length = 2 ∧ r5 = [] then
            some (digitsToNat g1, digitsToNat g2, digitsToNat g3)
          else none
        | _ => none
      else none
    | _ => none
  else none

/-- `parseIsoDate` (src/js/app.js): trim, match the ISO pattern, validate
the calendar parts, and return the constructed `Date`. -/
def parseIsoDate (isoDate : String) : Option JsDate :=
  match matchIso (jsTrim isoDate).data with
  | none => none
  | some (year, month, day) =>
    if isValidDateParts year month day then
      some (jsMakeDate year ((month : Int) - 1) day)
    else none

/-- `normalizeDueDate` (src/js/app.js): re-render a parsed ISO date in
canonical zero-padded form; `null` for anything unparsable.  The guard
`typeof value !== "string"` is handled by the callers, which pass
`none` for non-string inputs. -/
def normalizeDueDate (value : Option String) : Option String :=
  match value with
  | none => none
  | some s =>
    match parseIsoDate s with
    | none => none
    | some parsed => some (toIsoDateFromLocalDate parsed)

/-- The anchored regex `^(\d{1,2})\/(\d{1,2})\/(\d{2,4})$` of
`parseDueDateInput`, returning the three digit groups. -/
def matchLocal (cs : List Char) : Option (List Char × List Char × List Char) :=
  let (g1, r1) := splitDigits cs
  if 1 ≤ g1.length ∧ g1.length ≤ 2 then
    match r1 with
    | '/' :: r2 =>
      let (g2, r3) := splitDigits r2
      if 1 ≤ g2.length ∧ g2.length ≤ 2 then
        match r3 with
        | '/' :: r4 =>
          let (g3, r5) := splitDigits r4
          if (2 ≤ g3.length ∧ g3.length ≤ 4) ∧ r5 = [] then some (g1, g2, g3)
          else none
        | _ => none
      else none
    | _ => none
  else none

structure DateInputResult where
  status : String
  value : Option String
  deriving DecidableEq, Repr

/-- `parseDueDateInput` (src/js/app.js): parse a `DD/MM/YYYY` display
date; two-digit years expand with threshold 70. -/
def parseDueDateInput (value : String) : DateInputResult :=
  let raw := jsTrim value
  if raw.data = [] then ⟨"empty", none⟩
  else
    match matchLocal raw.data with
    | none => ⟨"invalid", none⟩
    | some (g1, g2, g3) =>
      let day := digitsToNat g1
      let month := digitsToNat g2
      let year0 := digitsToNat g3
      let year := if g3.length = 2 then
        (if year0 ≥ 70 then year0 + 1900 else year0 + 2000) else year0
      if isValidDateParts year month day then
        ⟨"valid", some (toIsoDate year month day)⟩
      else ⟨"invalid", none⟩

/-- `formatDueDateInput` (src/js/app.js): ISO to `DD/MM/YYYY`, reading
the components of the parsed `Date`; empty string when unparsable. -/
def formatDueDateInput (isoDate : String) : String :=
  match parseIsoDate isoDate with
  | none => ""
  | some date =>
    padStart (intToString date.dayOfMonth) 2 '0' ++ "/"
      ++ padStart (intToString (date.monthIndex + 1)) 2 '0' ++ "/"
      ++ intToString date.fullYear

/-- `normalizeDueDate` (src/js/tasks.js): the same ISO pattern and
calendar validation, re-rendered in zero-padded form directly from the
parsed numbers. -/
def tasksNormalizeDueDate (dueDate : Option String) : Option String :=
  match dueDate with
  | none => none
  | some s =>
    match matchIso (jsTrim s).data with
    | none => none
    | some (year, month, day) =>
      if isValidDateParts year month day then some (toIsoDate year month day)
      else none

/-! ### Parsed HTML trees and the sanitizer of editor.js

Browser DOM fragments are modelled as abstract parsed-HTML trees: text
nodes, element nodes with a tag, attributes and children, and a
constructor for every other node kind (comments, processing
instructions), which the sanitizer replaces by an empty text node.
`HForest` is a list of sibling nodes; a `DocumentFragment` return value
is a forest. -/

mutual
inductive HNode where
  | text (s : String) : HNode
  | elem (tag : String) (attrs : List (String × String)) (children : HForest) : HNode
  | other : HNode
inductive HForest where
  | nil : HForest
  | cons (n : HNode) (rest : HForest) : HForest
end

/-- Forest concatenation (appending a fragment appends its children). -/
def appendF : HForest → HForest → HForest
  | .nil, g => g
  | .cons n rest, g => .cons n (appendF rest g)

/-- `ALLOWED_TAGS` (src/js/editor.js). -/
def allowedTags : List String := ["B", "I", "U", "BR", "STRONG", "EM", "P", "DIV"]

/-- `TAG_NORMALIZATION` lookup with fallback to the original tag:
`TAG_NORMALIZATION[originalTag] || originalTag`. -/
def tagNormalization (tag : String) : String :=
  if tag = "STRONG" then "B"
  else if tag = "EM" then "I"
  else if tag = "DIV" then "P"
  else tag

mutual
/-- `sanitizeNode` (src/js/editor.js).  Text nodes pass through; other
non-element nodes become empty text; a disallowed element is unwrapped to
the forest of its sanitized children; `BR` becomes a bare `<br>`; an
allowed element is rebuilt under its normalized lowercase tag with no
attributes and sanitized children. -/
def sanitizeNode : HNode → HForest
  | .text s => .cons (.text s) .nil
  | .other => .cons (.text "") .nil
  | .elem tag _attrs children =>
    if decide (toUpperStr tag ∈ allowedTags) = false then sanitizeForest children
    else if tagNormalization (toUpperStr tag) = "BR" then
      .cons (.elem "br" [] .nil) .nil
    else
      .cons (.elem (toLowerStr (tagNormalization (toUpperStr tag))) []
        (sanitizeForest children)) .nil
/-- The `childNodes.forEach` loop of `sanitizeNode`/`sanitizeEditorHTML`:
sanitize each sibling and append the results. -/
def sanitizeForest : HForest → HForest
  | .nil => .nil
  | .cons n rest => appendF (sanitizeNode n) (sanitizeForest rest)
end

/-- Serialization of text content by `innerHTML`: markup characters and
non-breaking spaces are escaped. -/
def escapeChars : List Char → List Char
  | [] => []
  | c :: cs =>
    (if c = '&' then "&amp;".data
     else if c = '<' then "&lt;".data
     else if c = '>' then "&gt;".data
     else if c = '\u00A0' then "&nbsp;".data
     else [c]) ++ escapeChars cs

mutual
/-- `innerHTML` serialization of a sanitized node.  Sanitized output
carries no attributes, so attributes are not rendered; `br` is the only
void tag the sanitizer emits.  `other` nodes never occur in sanitizer
output, so their rendering is immaterial. -/
def serializeNode : HNode → List Char
  | .text s => escapeChars s.data
  | .other => []
  | .elem tag _attrs children =>
    if tag = "br" then "<br>".data
    else ('<' :: tag.data ++ ['>']) ++ serializeForest children
      ++ ('<' :: '/' :: tag.data ++ ['>'])
def serializeForest : HForest → List Char
  | .nil => []
  | .cons n rest => serializeNode n ++ serializeForest rest
end

/-- `sanitizeEditorHTML` (src/js/editor.js), taking the parsed fragment
of the input HTML (the children of the wrapper `<div>`): sanitize every
child, serialize, and trim.  Parsing itself is performed by the browser
`DOMParser`; theorems quantify over all possible parsed fragments. -/
def sanitizeEditorHTML (fragment : HForest) : String :=
  ⟨trimChars (serializeForest (sanitizeForest fragment))⟩

mutual
/-- `textContent` of a node: the concatenation of all text descendants
(comments contribute nothing). -/
def textContentNode : HNode → List Char
  | .text s => s.data
  | .other => []
  | .elem _ _ children => textContentForest children
def textContentForest : HForest → List Char
  | .nil => []
  | .cons n rest => textContentNode n ++ textContentForest rest
end

/-- `getTextFromHTML` (src/js/editor.js) applied to serialized HTML: the
`textContent` of its parse, with non-breaking spaces replaced by plain
spaces, trimmed.  Serializing and re-parsing round-trips text content, so
the function is modelled directly on the tree. -/
def getTextFromHTML (fragment : HForest) : String :=
  ⟨trimChars ((textContentForest fragment).map
    (fun c => if c = '\u00A0' then ' ' else c))⟩

/-- The tags the sanitizer is allowed to emit: the allow-list after
normalization, lowercased. -/
def outputTags : List String := ["b", "i", "u", "br", "p"]

mutual
/-- Safety of sanitizer output: every element carries an allow-listed
normalized tag, no attributes, and safe children. -/
def safeNode : HNode → Bool
  | .text _ => true
  | .other => false
  | .elem tag attrs children =>
    decide (tag ∈ outputTags) && attrs.isEmpty && safeForest children
def safeForest : HForest → Bool
  | .nil => true
  | .cons n rest => safeNode n && safeForest rest
end

/-! ### Template names (src/js/app.js) -/

def TEMPLATE_NAME_MAX_LENGTH : Nat := 32

def LEGACY_AUTO_TEMPLATE : String := "GENERAL"

/-- `sanitizeTemplateName` (src/js/app.js): brackets become spaces,
whitespace runs collapse to single spaces, trim, cap the length.  The
`typeof value !== "string"` guard is handled by callers, which pass the
empty result for non-string inputs. -/
def sanitizeTemplateName (value : String) : String :=
  let withoutBrackets := value.data.map
    (fun ch => if ch = '[' ∨ ch = ']' then ' ' else ch)
  ⟨(trimChars (collapseWs withoutBrackets)).take TEMPLATE_NAME_MAX_LENGTH⟩

/-- `getTemplateKey` (src/js/app.js). -/
def getTemplateKey (templateName : String) : String := toLowerKey templateName

/-- `findTemplateValue` (src/js/app.js): resolve a candidate against the
template list by case-insensitive key. -/
def findTemplateValue (templates : List String) (candidate : String) :
    Option String :=
  let cleaned := sanitizeTemplateName candidate
  if cleaned = "" then none
  else
    templates.find? (fun templateName =>
      getTemplateKey templateName = getTemplateKey cleaned)

/-- `pushUniqueTemplate` (src/js/app.js): returns the canonical label and
the (possibly extended) template list; the source mutates the array in
place. -/
def pushUniqueTemplate (templates : List String) (candidate : String) :
    Option String × List String :=
  let cleaned := sanitizeTemplateName candidate
  if cleaned = "" then (none, templates)
  else
    match findTemplateValue templates cleaned with
    | some existing => (some existing, templates)
    | none => (some cleaned, templates ++ [cleaned])

/-! ### Tasks -/

structure Task where
  id : String
  contentHtml : String
  template : Option String
  dueDate : Option String
  createdAt : String
  completed : Bool
  completedAt : Option String
  sourceType : String
  projectId : Option String
  deriving DecidableEq, Repr

/-- `createTask` (src/js/tasks.js).  The generated id and the current
time are nondeterministic inputs, passed explicitly. -/
def createTask (contentHtml : String) (template : Option String)
    (dueDate : Option String) (newId now : String) : Task :=
  let normalizedTemplate := match template with
    | some t => if (jsTrim t).data.length > 0 then some (jsTrim t) else none
    | none => none
  { id := newId
    contentHtml := contentHtml
    template := normalizedTemplate
    dueDate := tasksNormalizeDueDate dueDate
    createdAt := now
    completed := false
    completedAt := none
    sourceType := "manual"
    projectId := none }

/-! ### JSON values and snapshot loading (src/js/app.js) -/

inductive JValue where
  | jnull : JValue
  | jbool (b : Bool) : JValue
  | jnum (n : Int) : JValue
  | jstr (s : String) : JValue
  | jarr (items : List JValue) : JValue
  | jobj (fields : List (String × JValue)) : JValue

/-- Property read `v.key`: a field of an object, `undefined` (here
`none`) otherwise.  Property access on `null` throws; callers handle the
`jnull` case separately. -/
def jGet (v : JValue) (key : String) : Option JValue :=
  match v with
  | .jobj fields => (fields.find? (fun f => f.1 = key)).map (·.2)
  | _ => none

/-- The `template` handling inside `sanitizeTask` (src/js/app.js): clean
the stored template name, strip the legacy auto-template during
migration, and resolve the survivor against the template list through
`pushUniqueTemplate` (which the source mutates in place). -/
def sanitizeTaskTemplate (task : JValue) (templates : List String)
    (stripLegacyGeneral : Bool) : Option String × List String :=
  let template0 : Option String := match jGet task "template" with
    | some (.jstr s) => some (sanitizeTemplateName s)
    | _ => none
  let template1 : Option String := match template0 with
    | some t =>
      if t ≠ "" ∧ stripLegacyGeneral
          ∧ getTemplateKey t = getTemplateKey LEGACY_AUTO_TEMPLATE
      then none else some t
    | none => none
  match template1 with
  | some t => if t ≠ "" then pushUniqueTemplate templates t else (some t, templates)
  | none => (none, templates)

/-- `task.completed === true` inside `sanitizeTask`. -/
def sanitizeTaskCompleted (task : JValue) : Bool :=
  match jGet task "completed" with
  | some (.jbool b) => b
  | _ => false

/-- `completed && typeof task.completedAt === "string" ? task.completedAt
: null` inside `sanitizeTask`. -/
def sanitizeTaskCompletedAt (task : JValue) : Option String :=
  match jGet task "completedAt" with
  | some (.jstr s) => if sanitizeTaskCompleted task then some s else none
  | _ => none

/-- `normalizeDueDate(task.dueDate)` inside `sanitizeTask`; a non-string
value fails the `typeof` check inside `parseIsoDate`. -/
def sanitizeTaskDueDate (task : JValue) : Option String :=
  match jGet task "dueDate" with
  | some (.jstr s) => normalizeDueDate (some s)
  | _ => none

/-- `typeof task.createdAt === "string" ? task.createdAt : new
Date().toISOString()` inside `sanitizeTask`. -/
def sanitizeTaskCreatedAt (task : JValue) (now : String) : String :=
  match jGet task "createdAt" with
  | some (.jstr s) => s
  | _ => now

/-- `sanitizeTask` (src/js/app.js): field-by-field validation of one
persisted task record.  Returns the sanitized task (or `none` for a
record that must be dropped) together with the updated template list.
`now` stands for `new Date().toISOString()`. -/
def sanitizeTask (task : JValue) (templates : List String)
    (stripLegacyGeneral : Bool) (now : String) : Option Task × List String :=
  match task with
  | .jnull | .jbool _ | .jnum _ | .jstr _ => (none, templates)
  | _ =>
    match jGet task "id" with
    | some (.jstr id) =>
      if (jsTrim id).data.length = 0 then (none, templates)
      else
        match jGet task "contentHtml" with
        | some (.jstr contentHtml) =>
          if (jsTrim contentHtml).data.length = 0 then (none, templates)
          else
            let tf := sanitizeTaskTemplate task templates stripLegacyGeneral
            ({ id := id
               contentHtml := contentHtml
               template := tf.1
               dueDate := sanitizeTaskDueDate task
               createdAt := sanitizeTaskCreatedAt task now
               completed := sanitizeTaskCompleted task
               completedAt := sanitizeTaskCompletedAt task
               sourceType := "manual"
               projectId := none } : Task) |> (some ·, tf.2)
        | _ => (none, templates)
    | _ => (none, templates)

/-- `resolveActiveView` (src/js/app.js). -/
def resolveActiveView (activeView : Option JValue) : String :=
  match activeView with
  | some (.jstr s) => if s = "completed" then "completed" else "tasks"
  | _ => "tasks"

/-- The in-memory application state shape produced by `loadState`. -/
structure AppState where
  tasks : List Task
  templates : List String
  composerTemplate : Option String
  composerDueDate : Option String
  activeFilter : String
  activeView : String
  deriving DecidableEq, Repr

/-- The fallback state of `loadState`: the empty valid store. -/
def fallbackState : AppState :=
  { tasks := []
    templates := []
    composerTemplate := none
    composerDueDate := none
    activeFilter := "all"
    activeView := "tasks" }

def STORAGE_VERSION : Int := 2

/-- `loadState` (src/js/app.js).  `raw` is the stored snapshot after
`JSON.parse`: `none` when the storage entry is missing or parsing threw
(the surrounding `try`/`catch` turns any exception into the fallback);
`some .jnull` also falls back because property access on `null` throws
inside the `try`.  `now` stands for the current time used for defaulted
`createdAt` fields. -/
def loadState (raw : Option JValue) (now : String) : AppState :=
  match raw with
  | none => fallbackState
  | some .jnull => fallbackState
  | some parsed =>
    let isLegacyData : Bool := match jGet parsed "version" with
      | some (.jnum n) => n ≠ STORAGE_VERSION
      | _ => true
    let templates : List String := match jGet parsed "templates" with
      | some (.jarr items) =>
        items.foldl (fun acc item =>
          match item with
          | .jstr s =>
            let cleaned := sanitizeTemplateName s
            if cleaned = "" then acc
            else if isLegacyData
                ∧ getTemplateKey cleaned = getTemplateKey LEGACY_AUTO_TEMPLATE
            then acc
            else (pushUniqueTemplate acc s).2
          | _ => acc) []
      | _ => []
    let loaded : List Task × List String := match jGet parsed "tasks" with
      | some (.jarr items) =>
        items.foldl (fun acc item =>
          match sanitizeTask item acc.2 isLegacyData now with
          | (some t, tpl) => (acc.1 ++ [t], tpl)
          | (none, tpl) => (acc.1, tpl)) ([], templates)
      | _ => ([], templates)
    { tasks := loaded.1
      templates := loaded.2
      composerTemplate := none
      composerDueDate := none
      activeFilter := "all"
      activeView := resolveActiveView (jGet parsed "activeView") }

/-- Serialization of one task by `JSON.stringify` inside `saveState`. -/
def taskToJson (t : Task) : JValue :=
  .jobj [("id", .jstr t.id),
         ("contentHtml", .jstr t.contentHtml),
         ("template", match t.template with | some s => .jstr s | none => .jnull),
         ("dueDate", match t.dueDate with | some s => .jstr s | none => .jnull),
         ("createdAt", .jstr t.createdAt),
         ("completed", .jbool t.completed),
         ("completedAt", match t.completedAt with | some s => .jstr s | none => .jnull),
         ("sourceType", .jstr t.sourceType),
         ("projectId", match t.projectId with | some s => .jstr s | none => .jnull)]

/-- The snapshot object written by `saveState` (src/js/app.js); the
actual storage write is an external effect. -/
def saveStateSnapshot (tasks : List Task) (templates : List String)
    (activeFilter activeView : String) : JValue :=
  .jobj [("version", .jnum STORAGE_VERSION),
         ("tasks", .jarr (tasks.map taskToJson)),
         ("templates", .jarr (templates.map .jstr)),
         ("activeFilter", .jstr activeFilter),
         ("activeView", .jstr activeView)]

/-! ### The running application: state, timers, event handlers

`initApp` (src/js/app.js) owns the loaded state plus the
`pendingCompletionTimers` map and the browser timer queue.  `scheduled`
models the set of live `setTimeout` callbacks as pairs of the timer id
and the task id the callback closed over; `nextTimerId` generates fresh
timer ids (browser timer ids are positive, so the source's truthiness
test on a looked-up id is modelled as presence). -/

structure SysState where
  tasks : List Task
  templates : List String
  composerTemplate : Option String
  composerDueDate : Option String
  activeFilter : String
  activeView : String
  pendingCompletionTimers : List (String × Nat)
  scheduled : List (Nat × String)
  nextTimerId : Nat
  deriving DecidableEq, Repr

/-- `Map.prototype.get`. -/
def lookupKey (m : List (String × Nat)) (k : String) : Option Nat :=
  (m.find? (fun p => p.1 = k)).map (·.2)

/-- `Map.prototype.set`: overwrite in place if the key is present,
append otherwise. -/
def setKey (m : List (String × Nat)) (k : String) (v : Nat) :
    List (String × Nat) :=
  if (m.find? (fun p => p.1 = k)).isSome then
    m.map (fun p => if p.1 = k then (k, v) else p)
  else m ++ [(k, v)]

/-- `Map.prototype.delete` (keys are unique, so removing every pair with
the key coincides with removing the entry). -/
def eraseKey (m : List (String × Nat)) (k : String) : List (String × Nat) :=
  m.filter (fun p => p.1 ≠ k)

/-- `tasks.findIndex(t => t.id === taskId)` followed by an in-place
update of that index: update the first task carrying the id. -/
def updateFirstWithId (tasks : List Task) (taskId : String) (f : Task → Task) :
    List Task :=
  match tasks with
  | [] => []
  | t :: rest =>
    if t.id = taskId then f t :: rest
    else t :: updateFirstWithId rest taskId f

/-- `tasks.splice(taskIndex, 1)`: remove the first task carrying the id. -/
def removeFirstWithId (tasks : List Task) (taskId : String) : List Task :=
  match tasks with
  | [] => []
  | t :: rest => if t.id = taskId then rest else t :: removeFirstWithId rest taskId

/-- The `toggle-complete` branch of `handleTaskActionClick`
(src/js/app.js).  `cardCompleting` is the DOM input
`taskCard.classList.contains("is-completing")`; `now` stands for
`new Date().toISOString()`.  An active task clicked in the tasks view on
a card not yet animating only schedules a deferred commit; every other
case toggles immediately.  Note that the immediate branch does not touch
`pendingCompletionTimers`. -/
def handleToggleComplete (s : SysState) (taskId : String)
    (cardCompleting : Bool) (now : String) : SysState :=
  match s.tasks.find? (fun t => t.id = taskId) with
  | none => s
  | some existingTask =>
    if existingTask.completed = false ∧ s.activeView = "tasks"
        ∧ cardCompleting = false then
      { s with
        scheduled := s.scheduled ++ [(s.nextTimerId, taskId)]
        pendingCompletionTimers :=
          setKey s.pendingCompletionTimers taskId s.nextTimerId
        nextTimerId := s.nextTimerId + 1 }
    else
      { s with
        tasks := updateFirstWithId s.tasks taskId (fun t =>
          { t with
            completed := !t.completed
            completedAt := if !t.completed then some now else none }) }

/-- Firing of the `setTimeout` callback registered by the deferred
branch: the timer is spent, the registry entry for the closed-over task
id is deleted, and the task — if it still exists — is committed as
completed. -/
def fireTimer (s : SysState) (timerId : Nat) (now : String) : SysState :=
  match s.scheduled.find? (fun p => p.1 = timerId) with
  | none => s
  | some (_, taskId) =>
    let s1 := { s with
      scheduled := s.scheduled.filter (fun p => p.1 ≠ timerId)
      pendingCompletionTimers := eraseKey s.pendingCompletionTimers taskId }
    match s1.tasks.find? (fun t => t.id = taskId) with
    | none => s1
    | some _ =>
      { s1 with
        tasks := updateFirstWithId s1.tasks taskId (fun t =>
          { t with completed := true, completedAt := some now }) }

/-- The `delete-task` branch of `handleTaskActionClick` (src/js/app.js):
cancel a pending completion timer for the task, drop the registry entry,
and remove the task. -/
def handleDeleteTask (s : SysState) (taskId : String) : SysState :=
  match s.tasks.find? (fun t => t.id = taskId) with
  | none => s
  | some _ =>
    let s1 := match lookupKey s.pendingCompletionTimers taskId with
      | some pendingTimerId =>
        { s with
          scheduled := s.scheduled.filter (fun p => p.1 ≠ pendingTimerId)
          pendingCompletionTimers := eraseKey s.pendingCompletionTimers taskId }
      | none => s
    { s1 with tasks := removeFirstWithId s1.tasks taskId }

/-- `handleAddTask` (src/js/app.js).  `editorContent` is the parsed
fragment of the editor's `innerHTML`; `isEditorEmpty` sanitizes it and
tests the extracted plain text.  A successful creation appends the new
task and resets `composerDueDate` — and only `composerDueDate`. -/
def handleAddTask (s : SysState) (editorContent : HForest)
    (newId now : String) : SysState :=
  if s.activeView ≠ "tasks" then s
  else if (getTextFromHTML (sanitizeForest editorContent)).data.length = 0 then s
  else
    let html := sanitizeEditorHTML editorContent
    let task := createTask html s.composerTemplate s.composerDueDate newId now
    { s with tasks := s.tasks ++ [task], composerDueDate := none }

/-- `deleteTemplateFromState` (src/js/app.js). -/
def deleteTemplateFromState (s : SysState) (templateName : String) : SysState :=
  match findTemplateValue s.templates templateName with
  | none => s
  | some template =>
    let templateKey := getTemplateKey template
    let s1 := { s with
      templates := s.templates.filter
        (fun existingTemplate => getTemplateKey existingTemplate ≠ templateKey)
      tasks := s.tasks.map (fun (task : Task) =>
        match task.template with
        | none => task
        | some t =>
          if getTemplateKey t ≠ templateKey then task
          else { task with template := none }) }
    let s2 := match s1.composerTemplate with
      | some c =>
        if c ≠ "" ∧ getTemplateKey c = templateKey then
          { s1 with composerTemplate := none }
        else s1
      | none => s1
    if s2.activeFilter ≠ "all" ∧ s2.activeFilter ≠ "none"
        ∧ getTemplateKey s2.activeFilter = templateKey then
      { s2 with activeFilter := "all" }
    else s2

/-- The store-mutating user events handled by `initApp`. -/
inductive Event where
  | clickToggle (taskId : String) (cardCompleting : Bool) (now : String) : Event
  | clickDelete (taskId : String) : Event
  | timerFire (timerId : Nat) (now : String) : Event
  | addTask (editorContent : HForest) (newId now : String) : Event
  | deleteTemplate (templateName : String) : Event

def step (s : SysState) : Event → SysState
  | .clickToggle taskId cardCompleting now =>
    handleToggleComplete s taskId cardCompleting now
  | .clickDelete taskId => handleDeleteTask s taskId
  | .timerFire timerId now => fireTimer s timerId now
  | .addTask editorContent newId now => handleAddTask s editorContent newId now
  | .deleteTemplate templateName => deleteTemplateFromState s templateName

/-! ### Invariants and concrete fixtures -/

/-- The completion invariant of the spec: `completedAt` is non-null iff
`completed` is true. -/
def TaskInv (t : Task) : Prop := t.completed = true ↔ t.completedAt ≠ none

/-- The completion invariant over every task in the store. -/
def StoreInv (s : SysState) : Prop := ∀ t ∈ s.tasks, TaskInv t

/-- Well-formedness of the pending-timer registry: one entry per task id
(`Map` keys are unique). -/
def distinctKeys (m : List (String × Nat)) : Prop := (m.map Prod.fst).Nodup

/-- A loaded task record that passed validation carries a non-blank id
and non-blank content. -/
def validLoadedTask (t : Task) : Prop :=
  jsTrim t.id ≠ "" ∧ jsTrim t.contentHtml ≠ ""

/-- The faithful `DOMParser` (`text/html`) parse of
`"<script><b>x</b></script>"`: by the HTML RAWTEXT rule, the content of a
`script` element is never parsed as markup, so the fragment is a `script`
element wrapping the single text node `"<b>x</b>"`. -/
def scriptExample : HForest :=
  .cons (.elem "script" [] (.cons (.text "<b>x</b>") .nil)) .nil

/-- The parse of `"<span><b>x</b></span>"`: a disallowed (`span`) element
genuinely wrapping a `b` element, since `span` is an ordinary container
whose content is parsed as markup. -/
def spanWrapExample : HForest :=
  .cons (.elem "span" [] (.cons (.elem "b" [] (.cons (.text "x") .nil)) .nil)) .nil

/-- The parse of `"<span><span><b>x</b></span></span>"`: two nested
disallowed wrappers around a `b` element, exercising more than one level
of unwrapping. -/
def spanWrap2Example : HForest :=
  .cons (.elem "span" []
    (.cons (.elem "span" [] (.cons (.elem "b" [] (.cons (.text "x") .nil)) .nil)) .nil)) .nil

/-- The parsed fragment of `"<p><br></p>"`. -/
def emptyParaExample : HForest :=
  .cons (.elem "p" [] (.cons (.elem "br" [] .nil) .nil)) .nil

/-- A fixed active task used by concrete runs. -/
def demoTask : Task :=
  { id := "t1"
    contentHtml := "<p>x</p>"
    template := none
    dueDate := none
    createdAt := "2024-01-01T00:00:00.000Z"
    completed := false
    completedAt := none
    sourceType := "manual"
    projectId := none }

/-- A quiescent running state holding just `demoTask`. -/
def demoState : SysState :=
  { tasks := [demoTask]
    templates := []
    composerTemplate := none
    composerDueDate := none
    activeFilter := "all"
    activeView := "tasks"
    pendingCompletionTimers := []
    scheduled := []
    nextTimerId := 1 }

/-- A composer state with a pending template and due date selected and an
empty store. -/
def composerState : SysState :=
  { tasks := []
    templates := ["Work"]
    composerTemplate := some "Work"
    composerDueDate := some "2024-03-05"
    activeFilter := "all"
    activeView := "tasks"
    pendingCompletionTimers := []
    scheduled := []
    nextTimerId := 1 }

/-- A persisted task record claiming `completed: true` without any
`completedAt` string. -/
def badCompletedRecord : JValue :=
  .jobj [("id", .jstr "a"), ("contentHtml", .jstr "x"), ("completed", .jbool true)]

/-- A current-version snapshot containing `badCompletedRecord`. -/
def badCompletedSnapshot : JValue :=
  .jobj [("version", .jnum 2),
         ("tasks", .jarr [badCompletedRecord]),
         ("templates", .jarr []),
         ("activeFilter", .jstr "all"),
         ("activeView", .jstr "tasks")]

/-- A current-version snapshot holding one malformed task record (no id)
followed by one well-formed record. -/
def mixedSnapshot : JValue :=
  .jobj [("version", .jnum 2),
         ("tasks", .jarr [.jobj [("contentHtml", .jstr "orphan")],
                          .jobj [("id", .jstr "good"),
                                 ("contentHtml", .jstr "<p>hi</p>")]]),
         ("templates", .jarr []),
         ("activeFilter", .jstr "all"),
         ("activeView", .jstr "tasks")]

/-- A well-formed current-version snapshot whose stored `activeFilter` is
a template label. -/
def filteredSnapshot : JValue :=
  .jobj [("version", .jnum 2),
         ("tasks", .jarr []),
         ("templates", .jarr [.jstr "Work"]),
         ("activeFilter", .jstr "Work"),
         ("activeView", .jstr "tasks")]

/-- A task referencing the `"Work"` template. -/
def workTask : Task :=
  { id := "t2"
    contentHtml := "<p>w</p>"
    template := some "Work"
    dueDate := none
    createdAt := "2024-01-02T00:00:00.000Z"
    completed := false
    completedAt := none
    sourceType := "manual"
    projectId := none }

/-- A state in which the `"Work"` template is referenced by a task, by
the composer selection and by the active filter. -/
def cascadeState : SysState :=
  { tasks := [workTask]
    templates := ["Work"]
    composerTemplate := some "Work"
    composerDueDate := none
    activeFilter := "Work"
    activeView := "tasks"
    pendingCompletionTimers := []
    scheduled := []
    nextTimerId := 1 }

/-- The well-formed record of `mixedSnapshot` after loading. -/
def goodLoadedTask : Task :=
  { id := "good"
    contentHtml := "<p>hi</p>"
    template := none
    dueDate := none
    createdAt := "C"
    completed := false
    completedAt := none
    sourceType := "manual"
    projectId := none }

/-! ### Lemmas: decimal digits -/

/-- Number of decimal digits produced for `n`. -/
def numLen (n : Nat) : Nat :=
  if h : n < 10 then 1 else numLen (n / 10) + 1
  decreasing_by exact Nat.div_lt_self (by omega) (by omega)

theorem digitChar_isDigit (d : Nat) (h : d < 10) :
    isAsciiDigit (digitChar d) = true := by
  interval_cases d <;> decide

theorem digitVal_digitChar (d : Nat) (h : d < 10) :
    digitVal (digitChar d) = d := by
  interval_cases d <;> decide

theorem numLen_pos (n : Nat) : 1 ≤ numLen n := by
  unfold numLen
  split <;> omega

theorem numLen_step (n : Nat) (h : ¬ n < 10) :
    numLen n = numLen (n / 10) + 1 := by
  conv_lhs => unfold numLen
  rw [dif_neg h]

theorem numLen_le_succ (n : Nat) : numLen n ≤ n + 1 := by
  induction n using Nat.strong_induction_on with
  | _ n ih =>
    by_cases h : n < 10
    · unfold numLen
      rw [dif_pos h]
      omega
    · rw [numLen_step n h]
      have := ih (n / 10) (Nat.div_lt_self (by omega) (by omega))
      omega

theorem natDigitsAux_digits (fuel n : Nat) (acc : List Char)
    (hacc : ∀ c ∈ acc, isAsciiDigit c = true) :
    ∀ c ∈ natDigitsAux fuel n acc, isAsciiDigit c = true := by
  induction fuel generalizing n acc with
  | zero => exact hacc
  | succ fuel ih =>
    unfold natDigitsAux
    split
    · intro c hc
      rcases List.mem_cons.mp hc with h | h
      · subst h; exact digitChar_isDigit _ (by omega)
      · exact hacc c h
    · exact ih (n / 10) _
        (by
          intro c hc
          rcases List.mem_cons.mp hc with h | h
          · subst h; exact digitChar_isDigit _ (Nat.mod_lt _ (by omega))
          · exact hacc c h)

theorem natDigits_digits (n : Nat) :
    ∀ c ∈ natDigits n, isAsciiDigit c = true :=
  natDigitsAux_digits (n + 1) n [] (by intro c hc; cases hc)

theorem natDigitsAux_length (fuel n : Nat) (acc : List Char)
    (hfuel : numLen n ≤ fuel) :
    (natDigitsAux fuel n acc).length = numLen n + acc.length := by
  induction fuel generalizing n acc with
  | zero => have := numLen_pos n; omega
  | succ fuel ih =>
    unfold natDigitsAux
    split
    · have : numLen n = 1 := by
        unfold numLen
        rw [dif_pos (by omega)]
      simp [this]
      omega
    · rename_i h
      rw [numLen_step n h] at hfuel ⊢
      rw [ih (n / 10) _ (by omega)]
      simp
      omega

theorem natDigits_length (n : Nat) : (natDigits n).length = numLen n := by
  have := natDigitsAux_length (n + 1) n [] (numLen_le_succ n)
  simpa using this

theorem numLen_le (n k : Nat) (hk : 1 ≤ k) (h : n < 10 ^ k) : numLen n ≤ k := by
  induction k generalizing n with
  | zero => omega
  | succ k ih =>
    unfold numLen
    split
    · omega
    · have hk0 : 1 ≤ k := by
        by_contra hc
        have hk1 : k = 0 := by omega
        subst hk1
        simp at h
        omega
      have hdiv : n / 10 < 10 ^ k := by
        rw [pow_succ] at h
        omega
      have := ih (n / 10) hk0 hdiv
      omega

theorem numLen_ge (n k : Nat) (h : 10 ^ k ≤ n) : k + 1 ≤ numLen n := by
  induction k generalizing n with
  | zero =>
    unfold numLen
    split <;> omega
  | succ k ih =>
    unfold numLen
    split
    · exfalso
      have h10 : 10 ≤ 10 ^ (k + 1) := by
        calc 10 = 10 ^ 1 := by norm_num
        _ ≤ 10 ^ (k + 1) := Nat.pow_le_pow_right (by omega) (by omega)
      omega
    · have h10 : 10 ^ k ≤ n / 10 := by
        rw [pow_succ] at h
        omega
      have := ih (n / 10) h10
      omega

theorem digitsVal_natDigitsAux (fuel n : Nat) (acc : List Char) (a : Nat)
    (hfuel : numLen n ≤ fuel) :
    digitsVal (natDigitsAux fuel n acc) a
      = digitsVal acc (a * 10 ^ numLen n + n) := by
  induction fuel generalizing n acc a with
  | zero => have := numLen_pos n; omega
  | succ fuel ih =>
    unfold natDigitsAux
    split
    · rename_i h
      have hlen : numLen n = 1 := by
        unfold numLen
        rw [dif_pos h]
      simp [hlen, digitsVal, digitVal_digitChar n (by omega)]
      congr 1
      ring
    · rename_i h
      rw [numLen_step n h] at hfuel ⊢
      rw [ih (n / 10) _ _ (by omega)]
      simp [digitsVal, digitVal_digitChar (n % 10) (Nat.mod_lt _ (by omega))]
      congr 1
      have hp : a * 10 ^ (numLen (n / 10) + 1)
          = 10 * (a * 10 ^ numLen (n / 10)) := by
        ring
      omega

theorem digitsToNat_natDigits (n : Nat) : digitsToNat (natDigits n) = n := by
  have := digitsVal_natDigitsAux (n + 1) n [] 0 (numLen_le_succ n)
  simpa [digitsToNat, natDigits, digitsVal] using this

theorem digitsVal_zeros (k : Nat) (cs : List Char) :
    digitsVal (List.replicate k '0' ++ cs) 0 = digitsVal cs 0 := by
  induction k with
  | zero => simp
  | succ k ih => simpa [List.replicate_succ, digitsVal, digitVal] using ih

theorem digitsToNat_padZeros (cs : List Char) (len : Nat) :
    digitsToNat (padStartChars cs len '0') = digitsToNat cs := by
  simp [digitsToNat, padStartChars, digitsVal_zeros]

theorem padStartChars_length (cs : List Char) (len : Nat) (c : Char) :
    (padStartChars cs len c).length = max len cs.length := by
  simp [padStartChars]
  omega

theorem padStartChars_digits (cs : List Char) (len : Nat)
    (h : ∀ c ∈ cs, isAsciiDigit c = true) :
    ∀ c ∈ padStartChars cs len '0', isAsciiDigit c = true := by
  intro c hc
  rcases List.mem_append.mp hc with h1 | h1
  · have := List.eq_of_mem_replicate h1
    subst this
    decide
  · exact h c h1

/-! ### Lemmas: trimming and digit-group matching -/

theorem digit_not_space (c : Char) (h : isAsciiDigit c = true) :
    isJsSpace c = false := by
  by_contra hmem
  have ht : c ∈ jsSpaceChars := by
    simp [isJsSpace] at hmem
    exact hmem
  fin_cases ht <;> exact absurd h (by decide)

theorem dropWhile_eq_self_of_none (p : Char → Bool) (cs : List Char)
    (h : ∀ c ∈ cs, p c = false) : cs.dropWhile p = cs := by
  cases cs with
  | nil => rfl
  | cons c rest =>
    rw [List.dropWhile_cons_of_neg]
    simp [h c (by simp)]

theorem trimChars_eq_self (cs : List Char)
    (h : ∀ c ∈ cs, isJsSpace c = false) : trimChars cs = cs := by
  unfold trimChars
  rw [dropWhile_eq_self_of_none _ _ h]
  rw [dropWhile_eq_self_of_none _ _ (by intro c hc; exact h c (List.mem_reverse.mp hc))]
  simp

theorem jsTrim_eq_self (s : String)
    (h : ∀ c ∈ s.data, isJsSpace c = false) : jsTrim s = s := by
  show String.mk (trimChars s.data) = s
  rw [trimChars_eq_self s.data h]

theorem splitDigits_append (ds rest : List Char)
    (hd : ∀ c ∈ ds, isAsciiDigit c = true)
    (hr : match rest with | [] => True | c :: _ => isAsciiDigit c = false) :
    splitDigits (ds ++ rest) = (ds, rest) := by
  induction ds with
  | nil =>
    cases rest with
    | nil => rfl
    | cons c r =>
      have hc : isAsciiDigit c = false := hr
      simp [splitDigits, List.takeWhile_cons, List.dropWhile_cons, hc]
  | cons d ds ih =>
    have hdd : isAsciiDigit d = true := hd d (by simp)
    have ih2 := ih (fun c hc => hd c (by simp [hc]))
    simp [splitDigits, Prod.ext_iff] at ih2
    simp [splitDigits, List.takeWhile_cons, List.dropWhile_cons, hdd]
    exact ⟨ih2.1, ih2.2⟩
/-! ### Lemmas: the `Date` model -/

theorem daysInMonth_ge (y m : Int) : 28 ≤ daysInMonth y m := by
  unfold daysInMonth
  split
  · split <;> omega
  · split <;> omega

/-- Forward day normalization never decreases the year. -/
theorem normDays_year_ge_of_pos (fuel : Nat) (y m d : Int) (hd : 1 ≤ d) :
    y ≤ (normDays fuel y m d).1 := by
  induction fuel generalizing y m d with
  | zero =>
    simp only [normDays]
    omega
  | succ fuel ih =>
    by_cases h1 : d < 1
    · omega
    · by_cases h2 : d > daysInMonth y m
      · by_cases hm : m = 12
        · subst hm
          have := ih (y + 1) 1 (d - daysInMonth y 12) (by omega)
          simp [normDays, h1, h2]
          omega
        · have := ih y (m + 1) (d - daysInMonth y m) (by omega)
          simp [normDays, h1, h2, hm]
          omega
      · simp only [normDays]
        rw [if_neg h1, if_neg h2]

/-- Day normalization decreases the year by at most one. -/
theorem normDays_year_ge (fuel : Nat) (y m d : Int) (hd : 0 ≤ d) :
    y - 1 ≤ (normDays fuel y m d).1 := by
  cases fuel with
  | zero =>
    simp only [normDays]
    omega
  | succ fuel =>
    by_cases h1 : d < 1
    · have hd0 : d = 0 := by omega
      subst hd0
      by_cases hm : m = 1
      · subst hm
        have hge := daysInMonth_ge (y - 1) 12
        have := normDays_year_ge_of_pos fuel (y - 1) 12 (daysInMonth (y - 1) 12)
          (by omega)
        simp [normDays, h1]
        omega
      · have hge := daysInMonth_ge y (m - 1)
        have := normDays_year_ge_of_pos fuel y (m - 1) (daysInMonth y (m - 1))
          (by omega)
        simp [normDays, h1, hm]
        omega
    · by_cases h2 : d > daysInMonth y m
      · by_cases hm : m = 12
        · subst hm
          have := normDays_year_ge_of_pos fuel (y + 1) 1 (d - daysInMonth y 12)
            (by omega)
          simp [normDays, h1, h2]
          omega
        · have := normDays_year_ge_of_pos fuel y (m + 1) (d - daysInMonth y m)
            (by omega)
          simp [normDays, h1, h2, hm]
          omega
      · simp only [normDays]
        rw [if_neg h1, if_neg h2]
        omega

theorem isValidDateParts_spec (year month day : Int)
    (h : isValidDateParts year month day = true) :
    jsMakeDate year (month - 1) day = ⟨year, month - 1, day⟩ := by
  simpa [isValidDateParts] using h

/-- No year below 100 passes the validity check: the `Date` constructor
maps such a year argument into the 1900s, so the read-back year never
matches. -/
theorem validDateParts_year_ge_100 (y m d : Nat)
    (h : isValidDateParts y m d = true) : 100 ≤ y := by
  by_contra hy
  have hspec := isValidDateParts_spec y m d h
  have hyr : ((jsMakeDate y ((m : Int) - 1) d).fullYear : Int) = y := by
    rw [hspec]
  unfold jsMakeDate at hyr
  simp only at hyr
  have hcond : (0 : Int) ≤ (y : Int) ∧ (y : Int) ≤ 99 := by
    constructor
    · exact Int.ofNat_nonneg y
    · omega
  rw [if_pos hcond] at hyr
  set mi : Int := (m : Int) - 1 with hmi
  have hmi1 : -1 ≤ mi := by
    have : (0 : Int) ≤ (m : Int) := Int.ofNat_nonneg m
    omega
  have hfd : -1 ≤ (mi - mi % 12) / 12 := by omega
  have hd0 : (0 : Int) ≤ (d : Int) := Int.ofNat_nonneg d
  have hlow := normDays_year_ge 300 ((y : Int) + 1900 + (mi - mi % 12) / 12)
    (mi % 12 + 1) d hd0
  omega

/-! ### Lemmas: ISO and display date strings -/

theorem intToString_natCast (n : Nat) : intToString (n : Int) = natToString n := by
  have h : ¬ ((n : Int) < 0) := by omega
  simp [intToString, h]

theorem toIsoDate_data (y m d : Nat) :
    (toIsoDate (y : Int) (m : Int) (d : Int)).data
      = padStartChars (natDigits y) 4 '0'
        ++ '-' :: (padStartChars (natDigits m) 2 '0'
        ++ '-' :: padStartChars (natDigits d) 2 '0') := by
  simp [toIsoDate, intToString_natCast, padStart, natToString]

theorem pad_natDigits_length (n len : Nat) (h : n < 10 ^ len) (hlen : 1 ≤ len) :
    (padStartChars (natDigits n) len '0').length = len := by
  rw [padStartChars_length, natDigits_length]
  have := numLen_le n len hlen h
  omega

theorem pad_natDigits_digits (n len : Nat) :
    ∀ c ∈ padStartChars (natDigits n) len '0', isAsciiDigit c = true :=
  padStartChars_digits _ _ (natDigits_digits n)

theorem digitsToNat_pad_natDigits (n len : Nat) :
    digitsToNat (padStartChars (natDigits n) len '0') = n := by
  rw [digitsToNat_padZeros, digitsToNat_natDigits]

theorem matchIso_toIsoDate (y m d : Nat) (hy : y ≤ 9999) (hm : m ≤ 99)
    (hd : d ≤ 99) :
    matchIso (toIsoDate (y : Int) (m : Int) (d : Int)).data = some (y, m, d) := by
  rw [toIsoDate_data]
  have hY := pad_natDigits_digits y 4
  have hM := pad_natDigits_digits m 2
  have hD := pad_natDigits_digits d 2
  have h1 : splitDigits (padStartChars (natDigits y) 4 '0'
      ++ '-' :: (padStartChars (natDigits m) 2 '0'
      ++ '-' :: padStartChars (natDigits d) 2 '0'))
      = (padStartChars (natDigits y) 4 '0',
         '-' :: (padStartChars (natDigits m) 2 '0'
         ++ '-' :: padStartChars (natDigits d) 2 '0')) :=
    splitDigits_append _ _ hY ((by decide : isAsciiDigit '-' = false))
  have h2 : splitDigits (padStartChars (natDigits m) 2 '0'
      ++ '-' :: padStartChars (natDigits d) 2 '0')
      = (padStartChars (natDigits m) 2 '0',
         '-' :: padStartChars (natDigits d) 2 '0') :=
    splitDigits_append _ _ hM ((by decide : isAsciiDigit '-' = false))
  have h3 : splitDigits (padStartChars (natDigits d) 2 '0')
      = (padStartChars (natDigits d) 2 '0', []) := by
    have := splitDigits_append (padStartChars (natDigits d) 2 '0') [] hD (by trivial)
    simpa using this
  have hl1 : (padStartChars (natDigits y) 4 '0').length = 4 :=
    pad_natDigits_length y 4 (by omega) (by omega)
  have hl2 : (padStartChars (natDigits m) 2 '0').length = 2 :=
    pad_natDigits_length m 2 (by omega) (by omega)
  have hl3 : (padStartChars (natDigits d) 2 '0').length = 2 :=
    pad_natDigits_length d 2 (by omega) (by omega)
  simp [matchIso, h1, h2, h3, hl1, hl2, hl3, digitsToNat_pad_natDigits]

theorem dash_not_space : isJsSpace '-' = false := by decide

theorem slash_not_space : isJsSpace '/' = false := by decide

theorem jsTrim_toIsoDate (y m d : Nat) :
    jsTrim (toIsoDate (y : Int) (m : Int) (d : Int))
      = toIsoDate (y : Int) (m : Int) (d : Int) := by
  apply jsTrim_eq_self
  rw [toIsoDate_data]
  intro ch hch
  rcases List.mem_append.mp hch with h | h
  · exact digit_not_space ch (pad_natDigits_digits y 4 ch h)
  · rcases List.mem_cons.mp h with h | h
    · subst h; decide
    · rcases List.mem_append.mp h with h | h
      · exact digit_not_space ch (pad_natDigits_digits m 2 ch h)
      · rcases List.mem_cons.mp h with h | h
        · subst h; decide
        · exact digit_not_space ch (pad_natDigits_digits d 2 ch h)

theorem parseIsoDate_toIsoDate (y m d : Nat) (hy : y ≤ 9999) (hm : m ≤ 99)
    (hd : d ≤ 99) (hv : isValidDateParts (y : Int) (m : Int) (d : Int) = true) :
    parseIsoDate (toIsoDate (y : Int) (m : Int) (d : Int))
      = some ⟨(y : Int), (m : Int) - 1, (d : Int)⟩ := by
  unfold parseIsoDate
  rw [jsTrim_toIsoDate, matchIso_toIsoDate y m d hy hm hd]
  simp [hv]
  exact isValidDateParts_spec _ _ _ hv

theorem formatDueDateInput_toIsoDate (y m d : Nat) (hy : y ≤ 9999) (hm : m ≤ 99)
    (hd : d ≤ 99) (hv : isValidDateParts (y : Int) (m : Int) (d : Int) = true) :
    formatDueDateInput (toIsoDate (y : Int) (m : Int) (d : Int))
      = padStart (natToString d) 2 '0' ++ "/" ++ padStart (natToString m) 2 '0'
        ++ "/" ++ natToString y := by
  unfold formatDueDateInput
  rw [parseIsoDate_toIsoDate y m d hy hm hd hv]
  have hm1 : (m : Int) - 1 + 1 = (m : Int) := by omega
  simp only [hm1, intToString_natCast]

theorem display_data (y m d : Nat) :
    (padStart (natToString d) 2 '0' ++ "/" ++ padStart (natToString m) 2 '0'
      ++ "/" ++ natToString y).data
      = padStartChars (natDigits d) 2 '0'
        ++ '/' :: (padStartChars (natDigits m) 2 '0' ++ '/' :: natDigits y) := by
  simp [padStart, natToString]

theorem matchLocal_display (y m d : Nat) (hy : y ≤ 9999) (hy3 : 100 ≤ y)
    (hm : m ≤ 99) (hd : d ≤ 99) :
    matchLocal (padStartChars (natDigits d) 2 '0'
      ++ '/' :: (padStartChars (natDigits m) 2 '0' ++ '/' :: natDigits y))
      = some (padStartChars (natDigits d) 2 '0',
              padStartChars (natDigits m) 2 '0', natDigits y) := by
  have hD := pad_natDigits_digits d 2
  have hM := pad_natDigits_digits m 2
  have hY := natDigits_digits y
  have h1 : splitDigits (padStartChars (natDigits d) 2 '0'
      ++ '/' :: (padStartChars (natDigits m) 2 '0' ++ '/' :: natDigits y))
      = (padStartChars (natDigits d) 2 '0',
         '/' :: (padStartChars (natDigits m) 2 '0' ++ '/' :: natDigits y)) :=
    splitDigits_append _ _ hD ((by decide : isAsciiDigit '/' = false))
  have h2 : splitDigits (padStartChars (natDigits m) 2 '0' ++ '/' :: natDigits y)
      = (padStartChars (natDigits m) 2 '0', '/' :: natDigits y) :=
    splitDigits_append _ _ hM ((by decide : isAsciiDigit '/' = false))
  have h3 : splitDigits (natDigits y) = (natDigits y, []) := by
    have := splitDigits_append (natDigits y) [] hY (by trivial)
    simpa using this
  have hl1 : (padStartChars (natDigits d) 2 '0').length = 2 :=
    pad_natDigits_length d 2 (by omega) (by omega)
  have hl2 : (padStartChars (natDigits m) 2 '0').length = 2 :=
    pad_natDigits_length m 2 (by omega) (by omega)
  have hlY1 : (natDigits y).length ≤ 4 := by
    rw [natDigits_length]
    exact numLen_le y 4 (by omega) (by omega)
  have hlY2 : 3 ≤ (natDigits y).length := by
    rw [natDigits_length]
    have := numLen_ge y 2 (by omega)
    omega
  simp [matchLocal, h1, h2, h3, hl1, hl2]
  omega

/-- The canonical round trip `parseDisplay ∘ formatDisplay` on valid
canonical ISO dates. -/
theorem parse_format_display (y m d : Nat) (hy : y ≤ 9999) (hm : m ≤ 99)
    (hd : d ≤ 99) (hv : isValidDateParts (y : Int) (m : Int) (d : Int) = true) :
    parseDueDateInput (formatDueDateInput (toIsoDate (y : Int) (m : Int) (d : Int)))
      = ⟨"valid", some (toIsoDate (y : Int) (m : Int) (d : Int))⟩ := by
  rw [formatDueDateInput_toIsoDate y m d hy hm hd hv]
  have hy3 : 100 ≤ y := validDateParts_year_ge_100 y m d hv
  unfold parseDueDateInput
  have htrim : jsTrim (padStart (natToString d) 2 '0' ++ "/"
      ++ padStart (natToString m) 2 '0' ++ "/" ++ natToString y)
      = padStart (natToString d) 2 '0' ++ "/" ++ padStart (natToString m) 2 '0'
        ++ "/" ++ natToString y := by
    apply jsTrim_eq_self
    rw [display_data]
    intro ch hch
    rcases List.mem_append.mp hch with h | h
    · exact digit_not_space ch (pad_natDigits_digits d 2 ch h)
    · rcases List.mem_cons.mp h with h | h
      · subst h; decide
      · rcases List.mem_append.mp h with h | h
        · exact digit_not_space ch (pad_natDigits_digits m 2 ch h)
        · rcases List.mem_cons.mp h with h | h
          · subst h; decide
          · exact digit_not_space ch (natDigits_digits y ch h)
  rw [htrim]
  simp only [display_data]
  have hne : padStartChars (natDigits d) 2 '0'
      ++ '/' :: (padStartChars (natDigits m) 2 '0' ++ '/' :: natDigits y) ≠ [] := by
    intro hcontra
    have := congrArg List.length hcontra
    simp [pad_natDigits_length d 2 (by omega) (by omega)] at this
  rw [if_neg hne, matchLocal_display y m d hy hy3 hm hd]
  have hlY2 : (natDigits y).length ≠ 2 := by
    rw [natDigits_length]
    have := numLen_ge y 2 (by omega)
    omega
  simp [digitsToNat_pad_natDigits, digitsToNat_natDigits, hlY2, hv]

/-! ### Lemmas: sanitizer safety -/

theorem safeForest_appendF (f g : HForest) :
    safeForest (appendF f g) = (safeForest f && safeForest g) :=
  match f with
  | .nil => by simp [appendF, safeForest]
  | .cons n rest => by
    have ih := safeForest_appendF rest g
    simp [appendF, safeForest, ih, Bool.and_assoc]

/-- Every allowed non-`BR` tag normalizes and lowercases into the output
allow-list. -/
theorem normalized_lower_mem (t : String) (h : t ∈ allowedTags) (hbr : t ≠ "BR") :
    toLowerStr (tagNormalization t) ∈ outputTags := by
  fin_cases h <;> first
    | exact absurd rfl hbr
    | decide

mutual
theorem sanitizeNode_safe (n : HNode) : safeForest (sanitizeNode n) = true :=
  match n with
  | .text s => by simp [sanitizeNode, safeForest, safeNode]
  | .other => by simp [sanitizeNode, safeForest, safeNode]
  | .elem tag attrs children => by
    have hch := sanitizeForest_safe children
    by_cases hmem : toUpperStr tag ∈ allowedTags
    · rw [sanitizeNode, if_neg (by simp [hmem])]
      by_cases hbr : tagNormalization (toUpperStr tag) = "BR"
      · rw [if_pos hbr]
        decide
      · rw [if_neg hbr]
        have htag : toLowerStr (tagNormalization (toUpperStr tag)) ∈ outputTags := by
          apply normalized_lower_mem _ hmem
          intro hcontra
          apply hbr
          rw [hcontra]
          decide
        simp [safeForest, safeNode, htag, hch]
    · rw [sanitizeNode, if_pos (by simp [hmem])]
      exact hch
theorem sanitizeForest_safe (f : HForest) : safeForest (sanitizeForest f) = true :=
  match f with
  | .nil => by simp [sanitizeForest, safeForest]
  | .cons n rest => by
    simp [sanitizeForest, safeForest_appendF, sanitizeNode_safe n,
      sanitizeForest_safe rest]
end

/-! ### Lemmas: list and registry operations -/

theorem mem_updateFirstWithId (tasks : List Task) (taskId : String)
    (f : Task → Task) (t : Task) (h : t ∈ updateFirstWithId tasks taskId f) :
    t ∈ tasks ∨ ∃ u ∈ tasks, t = f u := by
  induction tasks with
  | nil => simp [updateFirstWithId] at h
  | cons u rest ih =>
    simp only [updateFirstWithId] at h
    by_cases hid : u.id = taskId
    · rw [if_pos hid] at h
      rcases List.mem_cons.mp h with h | h
      · exact Or.inr ⟨u, by simp, h⟩
      · exact Or.inl (by simp [h])
    · rw [if_neg hid] at h
      rcases List.mem_cons.mp h with h | h
      · exact Or.inl (by simp [h])
      · rcases ih h with h | ⟨v, hv, ht⟩
        · exact Or.inl (by simp [h])
        · exact Or.inr ⟨v, by simp [hv], ht⟩

theorem mem_removeFirstWithId (tasks : List Task) (taskId : String) (t : Task)
    (h : t ∈ removeFirstWithId tasks taskId) : t ∈ tasks := by
  induction tasks with
  | nil => simp [removeFirstWithId] at h
  | cons u rest ih =>
    simp only [removeFirstWithId] at h
    by_cases hid : u.id = taskId
    · rw [if_pos hid] at h
      simp [h]
    · rw [if_neg hid] at h
      rcases List.mem_cons.mp h with h | h
      · simp [h]
      · simp [ih h]

theorem removeFirstWithId_no_id (tasks : List Task) (taskId : String)
    (hids : (tasks.map Task.id).Nodup) :
    ∀ t ∈ removeFirstWithId tasks taskId, t.id ≠ taskId := by
  induction tasks with
  | nil => simp [removeFirstWithId]
  | cons u rest ih =>
    simp only [List.map_cons, List.nodup_cons] at hids
    simp only [removeFirstWithId]
    by_cases hid : u.id = taskId
    · rw [if_pos hid]
      intro t ht hcontra
      apply hids.1
      rw [hid, ← hcontra]
      exact List.mem_map.mpr ⟨t, ht, rfl⟩
    · rw [if_neg hid]
      intro t ht
      rcases List.mem_cons.mp ht with h | h
      · rw [h]; exact hid
      · exact ih hids.2 t h

theorem lookupKey_eraseKey (m : List (String × Nat)) (k : String) :
    lookupKey (eraseKey m k) k = none := by
  induction m with
  | nil => rfl
  | cons p rest ih =>
    by_cases hk : p.1 = k
    · have hdrop : eraseKey (p :: rest) k = eraseKey rest k := by
        simp [eraseKey, List.filter_cons, hk]
      rw [hdrop]
      exact ih
    · have hkeep : eraseKey (p :: rest) k = p :: eraseKey rest k := by
        simp [eraseKey, List.filter_cons, hk]
      rw [hkeep]
      unfold lookupKey at ih ⊢
      rw [List.find?_cons_of_neg _ (by simp [hk])]
      exact ih

theorem map_fst_overwrite (m : List (String × Nat)) (k : String) (v : Nat) :
    (m.map (fun p => if p.1 = k then (k, v) else p)).map Prod.fst
      = m.map Prod.fst := by
  induction m with
  | nil => rfl
  | cons p rest ih =>
    by_cases hk : p.1 = k <;> simp [hk, ih]

theorem distinctKeys_setKey (m : List (String × Nat)) (k : String) (v : Nat)
    (h : distinctKeys m) : distinctKeys (setKey m k v) := by
  unfold distinctKeys setKey
  split
  · rw [map_fst_overwrite]
    exact h
  · rename_i hfind
    rw [List.map_append]
    simp only [List.map_cons, List.map_nil]
    rw [List.nodup_append]
    refine ⟨h, List.nodup_singleton k, ?_⟩
    intro a ha hb
    simp only [List.mem_singleton] at hb
    rcases List.mem_map.mp ha with ⟨p, hp, hfst⟩
    rw [hb] at hfst
    have hnone : m.find? (fun p => p.1 = k) = none := by
      rcases hopt : m.find? (fun p => p.1 = k) with _ | q
      · exact hopt
      · exact absurd (by rw [hopt]; rfl) hfind
    have := List.find?_eq_none.mp hnone p hp
    simp at this
    exact this hfst

theorem distinctKeys_eraseKey (m : List (String × Nat)) (k : String)
    (h : distinctKeys m) : distinctKeys (eraseKey m k) := by
  unfold distinctKeys eraseKey
  exact List.Nodup.sublist ((List.filter_sublist m).map Prod.fst) h
/-! ### Lemmas: the completion invariant -/

theorem taskInv_createTask (contentHtml : String) (template dueDate : Option String)
    (newId now : String) : TaskInv (createTask contentHtml template dueDate newId now) := by
  simp [TaskInv, createTask]

theorem taskInv_toggle (t : Task) (now : String) :
    TaskInv { t with
      completed := !t.completed
      completedAt := if !t.completed then some now else none } := by
  cases hc : t.completed <;> simp [TaskInv, hc]

theorem taskInv_commit (t : Task) (now : String) :
    TaskInv { t with completed := true, completedAt := some now } := by
  simp [TaskInv]

theorem storeInv_handleToggleComplete (s : SysState) (taskId : String)
    (cardCompleting : Bool) (now : String) (h : StoreInv s) :
    StoreInv (handleToggleComplete s taskId cardCompleting now) := by
  unfold handleToggleComplete
  split
  · exact h
  · split
    · exact h
    · intro t ht
      simp only at ht
      rcases mem_updateFirstWithId _ _ _ _ ht with hmem | ⟨u, hu, hteq⟩
      · exact h t hmem
      · rw [hteq]
        exact taskInv_toggle u now

theorem storeInv_fireTimer (s : SysState) (timerId : Nat) (now : String)
    (h : StoreInv s) : StoreInv (fireTimer s timerId now) := by
  unfold fireTimer
  split
  · exact h
  · dsimp only
    split
    · exact h
    · intro t ht
      simp only at ht
      rcases mem_updateFirstWithId _ _ _ _ ht with hmem | ⟨u, hu, hteq⟩
      · exact h t hmem
      · rw [hteq]
        exact taskInv_commit u now

theorem storeInv_handleDeleteTask (s : SysState) (taskId : String)
    (h : StoreInv s) : StoreInv (handleDeleteTask s taskId) := by
  unfold handleDeleteTask
  split
  · exact h
  · split <;>
    · intro t ht
      simp only at ht
      exact h t (mem_removeFirstWithId _ _ _ ht)

theorem storeInv_handleAddTask (s : SysState) (editorContent : HForest)
    (newId now : String) (h : StoreInv s) :
    StoreInv (handleAddTask s editorContent newId now) := by
  unfold handleAddTask
  split
  · exact h
  · split
    · exact h
    · intro t ht
      simp only at ht
      rcases List.mem_append.mp ht with hmem | hmem
      · exact h t hmem
      · rw [List.mem_singleton.mp hmem]
        exact taskInv_createTask _ _ _ _ _

/-- With an existing template found, deletion rewrites the task list by
clearing exactly the matching template references. -/
theorem deleteTemplate_tasks (s : SysState) (templateName tpl : String)
    (hf : findTemplateValue s.templates templateName = some tpl) :
    (deleteTemplateFromState s templateName).tasks
      = s.tasks.map (fun task => match task.template with
          | none => task
          | some t =>
            if getTemplateKey t ≠ getTemplateKey tpl then task
            else { task with template := none }) := by
  unfold deleteTemplateFromState
  rw [hf]
  dsimp only
  split <;> first
    | rfl
    | (split <;> first
        | rfl
        | (split <;> rfl))

theorem deleteTemplate_templates (s : SysState) (templateName tpl : String)
    (hf : findTemplateValue s.templates templateName = some tpl) :
    (deleteTemplateFromState s templateName).templates
      = s.templates.filter (fun existingTemplate =>
          getTemplateKey existingTemplate ≠ getTemplateKey tpl) := by
  unfold deleteTemplateFromState
  rw [hf]
  dsimp only
  split <;> first
    | rfl
    | (split <;> first
        | rfl
        | (split <;> rfl))

theorem storeInv_deleteTemplateFromState (s : SysState) (templateName : String)
    (h : StoreInv s) : StoreInv (deleteTemplateFromState s templateName) := by
  rcases hf : findTemplateValue s.templates templateName with _ | tpl
  · unfold deleteTemplateFromState
    rw [hf]
    exact h
  · intro t ht
    rw [deleteTemplate_tasks s templateName tpl hf] at ht
    rcases List.mem_map.mp ht with ⟨u, hu, hteq⟩
    have hinv := h u hu
    rw [← hteq]
    rcases htpl : u.template with _ | x
    · simpa [htpl] using hinv
    · by_cases hkey : getTemplateKey x ≠ getTemplateKey tpl
      · simpa [htpl, hkey] using hinv
      · simp only [htpl]
        rw [if_neg hkey]
        simp only [TaskInv] at hinv ⊢
        simpa using hinv
/-! ### Lemmas: loading and task sanitation -/

theorem sanitizeTaskCompletedAt_imp (task : JValue)
    (h : sanitizeTaskCompletedAt task ≠ none) :
    sanitizeTaskCompleted task = true := by
  unfold sanitizeTaskCompletedAt at h
  split at h
  · by_cases hc : sanitizeTaskCompleted task = true
    · exact hc
    · rw [if_neg (by simpa using hc)] at h
      exact absurd rfl h
  · exact absurd rfl h

theorem sanitizeTaskCompletedAt_of_present (task : JValue)
    (hc : sanitizeTaskCompleted task = true)
    (hp : ∃ str, jGet task "completedAt" = some (.jstr str)) :
    sanitizeTaskCompletedAt task ≠ none := by
  obtain ⟨str, hstr⟩ := hp
  unfold sanitizeTaskCompletedAt
  rw [hstr]
  simp [hc]

theorem sanitizeTask_some (task : JValue) (templates : List String) (leg : Bool)
    (now : String) (t : Task) (templates2 : List String)
    (h : sanitizeTask task templates leg now = (some t, templates2)) :
    jsTrim t.id ≠ ""
    ∧ jsTrim t.contentHtml ≠ ""
    ∧ t.completed = sanitizeTaskCompleted task
    ∧ t.completedAt = sanitizeTaskCompletedAt task := by
  unfold sanitizeTask at h
  cases task with
  | jnull => simp at h
  | jbool b => simp at h
  | jnum n => simp at h
  | jstr s => simp at h
  | jarr items =>
    simp only [jGet] at h
    simp at h
  | jobj fields =>
    dsimp only at h
    split at h
    · rename_i id heqid
      split at h
      · simp at h
      · rename_i hid
        split at h
        · rename_i contentHtml heqcontent
          split at h
          · simp at h
          · rename_i hcontent
            simp only [Prod.mk.injEq, Option.some.injEq] at h
            obtain ⟨h1, h2⟩ := h
            rw [← h1]
            refine ⟨?_, ?_, rfl, rfl⟩
            · intro hcontra
              apply hid
              rw [hcontra]
              rfl
            · intro hcontra
              apply hcontent
              rw [hcontra]
              rfl
        · simp at h
    · simp at h

theorem sanitizeTask_some_valid (task : JValue) (templates : List String)
    (leg : Bool) (now : String) (t : Task) (templates2 : List String)
    (h : sanitizeTask task templates leg now = (some t, templates2)) :
    validLoadedTask t := by
  have := sanitizeTask_some task templates leg now t templates2 h
  exact ⟨this.1, this.2.1⟩

/-- Every task accumulated by the `loadState` task fold passed
`sanitizeTask`. -/
theorem loadFold_valid (items : List JValue) (leg : Bool) (now : String)
    (init : List Task × List String) (hinit : ∀ t ∈ init.1, validLoadedTask t) :
    ∀ t ∈ (items.foldl (fun acc item =>
        match sanitizeTask item acc.2 leg now with
        | (some t, tpl) => (acc.1 ++ [t], tpl)
        | (none, tpl) => (acc.1, tpl)) init).1, validLoadedTask t := by
  induction items generalizing init with
  | nil => exact hinit
  | cons item rest ih =>
    simp only [List.foldl_cons]
    apply ih
    rcases hs : sanitizeTask item init.2 leg now with ⟨ot, tpl⟩
    cases ot with
    | none => simpa [hs] using hinit
    | some u =>
      simp only [hs]
      intro t ht
      rcases List.mem_append.mp ht with hmem | hmem
      · exact hinit t hmem
      · rw [List.mem_singleton.mp hmem]
        exact sanitizeTask_some_valid item init.2 leg now u tpl hs

/-- Every task in a loaded state carries a non-blank id and non-blank
content: malformed records are dropped, not kept. -/
theorem loadState_tasks_valid (raw : Option JValue) (now : String) :
    ∀ t ∈ (loadState raw now).tasks, validLoadedTask t := by
  cases raw with
  | none => simp [loadState, fallbackState]
  | some v =>
    cases v with
    | jnull => simp [loadState, fallbackState]
    | jbool b => intro t ht; simp [loadState, jGet] at ht
    | jnum n => intro t ht; simp [loadState, jGet] at ht
    | jstr s => intro t ht; simp [loadState, jGet] at ht
    | jarr items => intro t ht; simp [loadState, jGet] at ht
    | jobj fields =>
      intro t ht
      unfold loadState at ht
      dsimp only at ht
      revert ht
      split
      · rename_i items heq
        apply loadFold_valid
        intro u hu
        simp at hu
      · intro ht
        simp at ht

/-! ### Lemmas: template resolution -/

theorem findTemplateValue_some (templates : List String) (candidate tpl : String)
    (h : findTemplateValue templates candidate = some tpl) :
    tpl ∈ templates
    ∧ getTemplateKey tpl = getTemplateKey (sanitizeTemplateName candidate)
    ∧ sanitizeTemplateName candidate ≠ "" := by
  unfold findTemplateValue at h
  by_cases hc : sanitizeTemplateName candidate = ""
  · rw [if_pos hc] at h
    cases h
  · rw [if_neg hc] at h
    refine ⟨List.mem_of_find?_eq_some h, ?_, hc⟩
    have := List.find?_some h
    simpa using this

theorem getTemplateKey_length (t : String) :
    (getTemplateKey t).data.length = t.data.length := by
  simp [getTemplateKey, toLowerKey]

theorem getTemplateKey_ne_empty (t : String) (h : t ≠ "") :
    getTemplateKey t ≠ "" := by
  intro hcontra
  apply h
  have hdata : t.data.map Char.toLower = [] := by
    have hd : (getTemplateKey t).data = "".data := by rw [hcontra]
    simpa [getTemplateKey, toLowerKey] using hd
  have hnil : t.data = [] := by
    cases hd : t.data with
    | nil => rfl
    | cons a l => rw [hd] at hdata; simp at hdata
  cases t with
  | mk data =>
    simp at hnil
    rw [hnil]
/-! ### The claims -/

/-- C1: for every input HTML fragment, the sanitizer output contains only
elements whose tags come from the allow-list after normalization
(`b`, `i`, `u`, `br`, `p`), every output element carries an empty
attribute list, and disallowed or foreign tags never survive at any
nesting depth (`safeForest` checks the whole subtree recursively). -/
theorem claim_c1_sanitizer_safety (fragment : HForest) :
    safeForest (sanitizeForest fragment) = true :=
  sanitizeForest_safe fragment

/-- C3 counterexample: on the faithful parse of
`"<script><b>x</b></script>"` — a `script` element whose content is, by
the HTML RAWTEXT rule, the single text node `"<b>x</b>"` — the sanitizer
unwraps the `script` and passes the text through, and `innerHTML`
serialization escapes it, so the program outputs `"&lt;b&gt;x&lt;/b&gt;"`,
not `"<b>x</b>"` as the claim states. -/
theorem claim_c3_counterexample :
    sanitizeEditorHTML scriptExample = "&lt;b&gt;x&lt;/b&gt;"
    ∧ sanitizeEditorHTML scriptExample ≠ "<b>x</b>" := by
  refine ⟨by decide, by decide⟩

/-- C3 (amended): unwrapping of disallowed elements is recursive — every
disallowed element is replaced by its recursively sanitized children, so
a `b` element survives one or two nested disallowed (`span`) wrappers
intact, and sanitizing those fragments yields exactly `"<b>x</b>"`.  For
the input string `"<script><b>x</b></script>"` itself, however, the
HTML parser's RAWTEXT rule makes the `script` content a single text
node, so the program outputs the escaped text `"&lt;b&gt;x&lt;/b&gt;"` —
still neither the empty string nor the raw script tag, but not
`"<b>x</b>"`. -/
theorem claim_c3_recursive_unwrap :
    (∀ (tag : String) (attrs : List (String × String)) (children : HForest),
        toUpperStr tag ∉ allowedTags →
        sanitizeNode (.elem tag attrs children) = sanitizeForest children)
    ∧ sanitizeEditorHTML spanWrapExample = "<b>x</b>"
    ∧ sanitizeEditorHTML spanWrap2Example = "<b>x</b>"
    ∧ sanitizeEditorHTML scriptExample = "&lt;b&gt;x&lt;/b&gt;"
    ∧ sanitizeEditorHTML scriptExample ≠ ""
    ∧ sanitizeEditorHTML scriptExample ≠ "<script><b>x</b></script>" := by
  refine ⟨?_, by decide, by decide, by decide, by decide, by decide⟩
  intro tag attrs children h
  simp [sanitizeNode, h]

/-- Witness for the universally quantified conjunct of the amended C3
theorem, instantiated at the disallowed `span` tag. -/
theorem claim_c3_witness :
    sanitizeNode (.elem "span" [] (.cons (.elem "b" [] (.cons (.text "x") .nil)) .nil))
      = sanitizeForest (.cons (.elem "b" [] (.cons (.text "x") .nil)) .nil) :=
  claim_c3_recursive_unwrap.1 "span" [] _ (by decide)

/-- C4: when the plain-text extraction of the sanitized editor HTML is
empty — in particular for the content `"<p><br></p>"` — `handleAddTask`
rejects the creation and leaves the entire state unchanged. -/
theorem claim_c4_empty_creation_rejected :
    getTextFromHTML (sanitizeForest emptyParaExample) = ""
    ∧ ∀ (s : SysState) (content : HForest) (newId now : String),
        getTextFromHTML (sanitizeForest content) = "" →
        handleAddTask s content newId now = s := by
  refine ⟨by decide, ?_⟩
  intro s content newId now h
  unfold handleAddTask
  split
  · rfl
  · rw [if_pos (by rw [h]; rfl)]

theorem claim_c4_witness :
    handleAddTask demoState emptyParaExample "id9" "2024-05-05T00:00:00.000Z"
      = demoState :=
  claim_c4_empty_creation_rejected.2 demoState emptyParaExample "id9"
    "2024-05-05T00:00:00.000Z" claim_c4_empty_creation_rejected.1

/-- C9 (counterexample): the whitespace-padded string `" 2023-01-05"` is
accepted by `parseIsoDate`, yet the display round trip returns the
canonical `"2023-01-05"`, which differs from the original input. -/
theorem claim_c9_counterexample :
    parseIsoDate " 2023-01-05" ≠ none
    ∧ parseDueDateInput (formatDueDateInput " 2023-01-05")
        = ⟨"valid", some "2023-01-05"⟩
    ∧ (" 2023-01-05" : String) ≠ "2023-01-05" := by
  refine ⟨by decide, by decide, by decide⟩

/-- C9 (amended): for every valid ISO date in canonical zero-padded
`YYYY-MM-DD` form (the parts drawn from the 4-2-2 digit groups and
passing the calendar validity check), the display round trip
`parseDisplay ∘ formatDisplay` returns status `"valid"` with exactly the
original canonical string; a whitespace-padded input accepted by
`parseIso` instead round-trips to its trimmed canonical form. -/
theorem claim_c9_display_roundtrip (y m d : Nat) (hy : y ≤ 9999) (hm : m ≤ 99)
    (hd : d ≤ 99) (hv : isValidDateParts (y : Int) (m : Int) (d : Int) = true) :
    parseDueDateInput (formatDueDateInput (toIsoDate (y : Int) (m : Int) (d : Int)))
      = ⟨"valid", some (toIsoDate (y : Int) (m : Int) (d : Int))⟩ :=
  parse_format_display y m d hy hm hd hv

theorem claim_c9_witness :
    parseDueDateInput (formatDueDateInput (toIsoDate (2023 : Int) 1 5))
      = ⟨"valid", some (toIsoDate (2023 : Int) 1 5)⟩ :=
  claim_c9_display_roundtrip 2023 1 5 (by omega) (by omega) (by omega) (by decide)

/-- C10: every load — including a well-formed current-version snapshot —
restores `activeFilter` as `"all"` and a null composer draft, even
though `saveState` writes the live `activeFilter` into the snapshot. -/
theorem claim_c10_filter_not_restored :
    (∀ (raw : Option JValue) (now : String),
      (loadState raw now).activeFilter = "all"
      ∧ (loadState raw now).composerTemplate = none
      ∧ (loadState raw now).composerDueDate = none)
    ∧ (∀ (tasks : List Task) (templates : List String)
        (activeFilter activeView : String),
        jGet (saveStateSnapshot tasks templates activeFilter activeView)
          "activeFilter" = some (.jstr activeFilter))
    ∧ (loadState (some filteredSnapshot) "N").activeFilter = "all" := by
  refine ⟨?_, ?_, by decide⟩
  · intro raw now
    rcases raw with _ | v
    · exact ⟨rfl, rfl, rfl⟩
    · cases v <;> exact ⟨rfl, rfl, rfl⟩
  · intro tasks templates activeFilter activeView
    simp [saveStateSnapshot, jGet, List.find?]

/-- C2 (counterexample): loading a snapshot whose task record claims
`completed: true` but carries no string `completedAt` yields a store
whose single task has `completed = true` and `completedAt = none`,
violating the claimed equivalence. -/
theorem claim_c2_counterexample :
    ((loadState (some badCompletedSnapshot) "NOW").tasks.map
        (fun t => t.completed)) = [true]
    ∧ ((loadState (some badCompletedSnapshot) "NOW").tasks.map
        (fun t => t.completedAt)) = [(none : Option String)] := by
  refine ⟨by decide, by decide⟩

/-- C2 (amended): `completedAt ≠ null` implies `completed` always; the
full equivalence holds for freshly created tasks and is preserved by
every store-mutating event (both toggle paths, the deferred commit,
deletion, task creation, template deletion); on load, `sanitizeTask`
guarantees the forward direction unconditionally and the full
equivalence whenever the stored record carries a string `completedAt`
for a completed task (as app-written snapshots do) — a record claiming
completion without one loads as `completed = true`,
`completedAt = null`. -/
theorem claim_c2_completion_invariant :
    (∀ (contentHtml : String) (template dueDate : Option String)
      (newId now : String),
      (createTask contentHtml template dueDate newId now).completed = false
      ∧ (createTask contentHtml template dueDate newId now).completedAt = none)
    ∧ (∀ (s : SysState) (e : Event), StoreInv s → StoreInv (step s e))
    ∧ (∀ task, sanitizeTaskCompletedAt task ≠ none
        → sanitizeTaskCompleted task = true)
    ∧ (∀ (task : JValue) (templates : List String) (leg : Bool) (now : String)
        (t : Task) (templates2 : List String),
        sanitizeTask task templates leg now = (some t, templates2) →
        (t.completedAt ≠ none → t.completed = true)
        ∧ (t.completed = true →
            (∃ str, jGet task "completedAt" = some (.jstr str)) →
            t.completedAt ≠ none)) := by
  refine ⟨fun _ _ _ _ _ => ⟨rfl, rfl⟩, ?_, sanitizeTaskCompletedAt_imp, ?_⟩
  · intro s e h
    cases e with
    | clickToggle taskId cardCompleting now =>
      exact storeInv_handleToggleComplete s taskId cardCompleting now h
    | clickDelete taskId => exact storeInv_handleDeleteTask s taskId h
    | timerFire timerId now => exact storeInv_fireTimer s timerId now h
    | addTask content newId now => exact storeInv_handleAddTask s content newId now h
    | deleteTemplate name => exact storeInv_deleteTemplateFromState s name h
  · intro task templates leg now t templates2 h
    have hs := sanitizeTask_some task templates leg now t templates2 h
    rw [hs.2.2.1, hs.2.2.2]
    exact ⟨sanitizeTaskCompletedAt_imp task,
      fun hc hp => sanitizeTaskCompletedAt_of_present task hc hp⟩

theorem claim_c2_witness :
    StoreInv (step demoState (Event.clickToggle "t1" false "T")) :=
  claim_c2_completion_invariant.2.1 demoState (Event.clickToggle "t1" false "T")
    (by
      intro t ht
      simp [demoState] at ht
      subst ht
      simp [TaskInv, demoTask])

/-- C7 (counterexample): a successful creation from a state with a
pending template appends a task yet leaves `composerTemplate` selected —
only the pending due date is reset, so the composer draft does not
return to its empty value. -/
theorem claim_c7_counterexample :
    (handleAddTask composerState (.cons (.text "hi") .nil) "id1" "T").tasks.length = 1
    ∧ (handleAddTask composerState (.cons (.text "hi") .nil) "id1" "T").composerTemplate
        = some "Work"
    ∧ (handleAddTask composerState (.cons (.text "hi") .nil) "id1" "T").composerDueDate
        = none := by
  refine ⟨by decide, by decide, by decide⟩

/-- C7 (amended): after each successful task creation the pending due
date is reset to null, but the pending template is not reset — it
persists as the selection for the next task. -/
theorem claim_c7_composer_amended (s : SysState) (content : HForest)
    (newId now : String) (hview : s.activeView = "tasks")
    (hne : getTextFromHTML (sanitizeForest content) ≠ "") :
    handleAddTask s content newId now
      = { s with
          tasks := s.tasks ++ [createTask (sanitizeEditorHTML content)
            s.composerTemplate s.composerDueDate newId now]
          composerDueDate := none }
    ∧ (handleAddTask s content newId now).composerTemplate
        = s.composerTemplate := by
  unfold handleAddTask
  rw [if_neg (by simp [hview])]
  rw [if_neg (by
    intro hlen
    apply hne
    have hdata : (getTextFromHTML (sanitizeForest content)).data = [] :=
      List.length_eq_zero.mp hlen
    cases hgs : getTextFromHTML (sanitizeForest content) with
    | mk data =>
      rw [hgs] at hdata
      simp at hdata
      rw [hdata])]
  exact ⟨rfl, rfl⟩

theorem claim_c7_witness :
    (handleAddTask composerState (.cons (.text "hey") .nil) "idW" "TW").composerTemplate
      = composerState.composerTemplate :=
  (claim_c7_composer_amended composerState (.cons (.text "hey") .nil) "idW" "TW"
    rfl (by decide)).2

/-- C8: a corrupted snapshot (`JSON.parse` failure or a `null` document,
both swallowed by the surrounding `try`/`catch`) loads as the empty
valid fallback state; within a loadable snapshot, every loaded task has
a non-blank id and non-blank content — a malformed record is dropped
while the rest of the load proceeds, as the mixed snapshot shows. -/
theorem claim_c8_load_resilience :
    (∀ now, loadState none now = fallbackState)
    ∧ (∀ now, loadState (some .jnull) now = fallbackState)
    ∧ (fallbackState.tasks = [] ∧ fallbackState.templates = []
        ∧ fallbackState.activeFilter = "all"
        ∧ fallbackState.activeView = "tasks"
        ∧ fallbackState.composerTemplate = none
        ∧ fallbackState.composerDueDate = none)
    ∧ (∀ (raw : Option JValue) (now : String),
        ∀ t ∈ (loadState raw now).tasks,
          jsTrim t.id ≠ "" ∧ jsTrim t.contentHtml ≠ "")
    ∧ ((loadState (some mixedSnapshot) "C").tasks.map (fun t => t.id)
        = ["good"]) := by
  refine ⟨fun _ => rfl, fun _ => rfl,
    ⟨rfl, rfl, rfl, rfl, rfl, rfl⟩, ?_, by decide⟩
  intro raw now t ht
  exact loadState_tasks_valid raw now t ht

theorem claim_c8_witness :
    jsTrim goodLoadedTask.id ≠ "" ∧ jsTrim goodLoadedTask.contentHtml ≠ "" :=
  claim_c8_load_resilience.2.2.2.1 (some mixedSnapshot) "C" goodLoadedTask
    (by decide)

/-! ### Lemmas: remaining cascade characterizations -/

theorem deleteTemplate_composer_reset (s : SysState) (name tpl ct : String)
    (hf : findTemplateValue s.templates name = some tpl)
    (hct : s.composerTemplate = some ct)
    (hkey : getTemplateKey ct = getTemplateKey tpl) :
    (deleteTemplateFromState s name).composerTemplate = none := by
  have htplne : getTemplateKey tpl ≠ "" := by
    obtain ⟨hmem, hkeq, hcne⟩ := findTemplateValue_some s.templates name tpl hf
    rw [hkeq]
    exact getTemplateKey_ne_empty _ hcne
  have hctne : ct ≠ "" := by
    intro hc
    apply htplne
    rw [← hkey, hc]
    rfl
  unfold deleteTemplateFromState
  rw [hf]
  dsimp only
  simp only [hct]
  rw [if_pos (show ct ≠ "" ∧ getTemplateKey ct = getTemplateKey tpl from
    ⟨hctne, hkey⟩)]
  split <;> rfl

theorem deleteTemplate_filter_reset (s : SysState) (name tpl : String)
    (hf : findTemplateValue s.templates name = some tpl)
    (h1 : s.activeFilter ≠ "all") (h2 : s.activeFilter ≠ "none")
    (hkey : getTemplateKey s.activeFilter = getTemplateKey tpl) :
    (deleteTemplateFromState s name).activeFilter = "all" := by
  have hc : s.activeFilter ≠ "all" ∧ s.activeFilter ≠ "none"
      ∧ getTemplateKey s.activeFilter = getTemplateKey tpl := ⟨h1, h2, hkey⟩
  unfold deleteTemplateFromState
  rw [hf]
  dsimp only
  rcases hcomp : s.composerTemplate with _ | ctv
  · simp only [hcomp]
    rw [if_pos hc]
  · simp only [hcomp]
    by_cases hct2 : ctv ≠ "" ∧ getTemplateKey ctv = getTemplateKey tpl
    · rw [if_pos hct2]
      rw [if_pos hc]
    · rw [if_neg hct2]
      rw [if_pos hc]

theorem deleteTemplate_timers (s : SysState) (name : String) :
    (deleteTemplateFromState s name).pendingCompletionTimers
      = s.pendingCompletionTimers := by
  unfold deleteTemplateFromState
  split
  · rfl
  · dsimp only
    split <;> first
      | rfl
      | (split <;> first
          | rfl
          | (split <;> rfl))

/-! ### The claims, continued -/

/-- C5: deleting a template label cascades — with no case-insensitive
match in the template set, deletion is a no-op (not an error); with a
match, every task whose template matches the deleted key
case-insensitively has its template cleared (and only those change),
the label leaves the template set, a composer selection carrying the
deleted key resets to no-template, and an active filter carrying the
deleted key resets to `"all"`. -/
theorem claim_c5_delete_template_cascade (s : SysState) (name : String) :
    (findTemplateValue s.templates name = none →
      deleteTemplateFromState s name = s)
    ∧ (∀ tpl, findTemplateValue s.templates name = some tpl →
        ((deleteTemplateFromState s name).tasks = s.tasks.map (fun task =>
            match task.template with
            | none => task
            | some t =>
              if getTemplateKey t ≠ getTemplateKey tpl then task
              else { task with template := none })
         ∧ (∀ t ∈ (deleteTemplateFromState s name).tasks,
              ∀ x, t.template = some x →
                getTemplateKey x ≠ getTemplateKey tpl)
         ∧ (deleteTemplateFromState s name).templates
             = s.templates.filter (fun existingTemplate =>
                 getTemplateKey existingTemplate ≠ getTemplateKey tpl)
         ∧ (∀ ct, s.composerTemplate = some ct →
              getTemplateKey ct = getTemplateKey tpl →
              (deleteTemplateFromState s name).composerTemplate = none)
         ∧ (s.activeFilter ≠ "all" → s.activeFilter ≠ "none" →
              getTemplateKey s.activeFilter = getTemplateKey tpl →
              (deleteTemplateFromState s name).activeFilter = "all"))) := by
  constructor
  · intro h
    unfold deleteTemplateFromState
    rw [h]
  · intro tpl hf
    refine ⟨deleteTemplate_tasks s name tpl hf, ?_,
      deleteTemplate_templates s name tpl hf,
      fun ct hct hkey => deleteTemplate_composer_reset s name tpl ct hf hct hkey,
      fun h1 h2 hkey => deleteTemplate_filter_reset s name tpl hf h1 h2 hkey⟩
    intro t ht x htx
    rw [deleteTemplate_tasks s name tpl hf] at ht
    rcases List.mem_map.mp ht with ⟨u, hu, hueq⟩
    rcases htpl : u.template with _ | v
    · have hteq : t = u := by
        rw [← hueq]
        simp [htpl]
      rw [hteq, htpl] at htx
      cases htx
    · by_cases hk : getTemplateKey v ≠ getTemplateKey tpl
      · have hteq : t = u := by
          rw [← hueq]
          simp [htpl, hk]
        rw [hteq, htpl] at htx
        have hteq2 : v = x := Option.some.inj htx
        rw [← hteq2]
        exact hk
      · have hteq : t = { u with template := none } := by
          rw [← hueq]
          simp [htpl, hk]
        rw [hteq] at htx
        cases htx

theorem claim_c5_witness :
    (deleteTemplateFromState cascadeState "work").activeFilter = "all"
    ∧ (deleteTemplateFromState cascadeState "work").composerTemplate = none :=
  ⟨((claim_c5_delete_template_cascade cascadeState "work").2 "Work"
      (by decide)).2.2.2.2 (by decide) (by decide) (by decide),
   ((claim_c5_delete_template_cascade cascadeState "work").2 "Work"
      (by decide)).2.2.2.1 "Work" rfl (by decide)⟩

/-- C6 (counterexample): after a deferred toggle immediately followed by
a second toggle on the animating card, the task is committed complete,
yet the pending completion timer is neither cancelled nor removed from
the registry — an immediate second toggle does not cancel the in-flight
deferred commit. -/
theorem claim_c6_counterexample :
    (step (step demoState (.clickToggle "t1" false "T1"))
        (.clickToggle "t1" true "T2")).pendingCompletionTimers = [("t1", 1)]
    ∧ (step (step demoState (.clickToggle "t1" false "T1"))
        (.clickToggle "t1" true "T2")).scheduled = [(1, "t1")]
    ∧ (step (step demoState (.clickToggle "t1" false "T1"))
        (.clickToggle "t1" true "T2")).tasks.map (fun t => t.completed)
        = [true] := by
  refine ⟨by decide, by decide, by decide⟩

/-- C6 (amended): the registry keyed by task id holds at most one entry
per task and this is preserved by every event; deleting a task cancels
its registered pending timer, clears its registry entry and removes the
task; a timer callback never mutates the store when its task has been
removed; and after a deferred completion commits and the task is toggled
back, the task is incomplete with a null `completedAt` and no timer
remains registered or scheduled.  An immediate second toggle, however,
commits completion without cancelling the pending timer (see the
counterexample). -/
theorem claim_c6_pending_timers :
    (∀ (s : SysState) (taskId : String) (t0 : Task),
        s.tasks.find? (fun t => t.id = taskId) = some t0 →
        lookupKey (handleDeleteTask s taskId).pendingCompletionTimers taskId = none
        ∧ (∀ n, lookupKey s.pendingCompletionTimers taskId = some n →
            ∀ p ∈ (handleDeleteTask s taskId).scheduled, p.1 ≠ n)
        ∧ ((s.tasks.map Task.id).Nodup →
            ∀ t ∈ (handleDeleteTask s taskId).tasks, t.id ≠ taskId))
    ∧ (∀ (s : SysState) (timerId : Nat) (now : String),
        (∀ p ∈ s.scheduled, p.1 = timerId → ∀ t ∈ s.tasks, t.id ≠ p.2) →
        (fireTimer s timerId now).tasks = s.tasks)
    ∧ (∀ (t : Task) (templates : List String) (ct cd : Option String)
        (af : String) (n : Nat) (now1 now2 now3 : String),
        t.completed = false →
        ((step (step (step ⟨[t], templates, ct, cd, af, "tasks", [], [], n⟩
              (.clickToggle t.id false now1)) (.timerFire n now2))
            (.clickToggle t.id false now3)).tasks.map (fun u => u.completed)
            = [false]
         ∧ (step (step (step ⟨[t], templates, ct, cd, af, "tasks", [], [], n⟩
              (.clickToggle t.id false now1)) (.timerFire n now2))
            (.clickToggle t.id false now3)).tasks.map (fun u => u.completedAt)
            = [(none : Option String)]
         ∧ (step (step (step ⟨[t], templates, ct, cd, af, "tasks", [], [], n⟩
              (.clickToggle t.id false now1)) (.timerFire n now2))
            (.clickToggle t.id false now3)).pendingCompletionTimers = []
         ∧ (step (step (step ⟨[t], templates, ct, cd, af, "tasks", [], [], n⟩
              (.clickToggle t.id false now1)) (.timerFire n now2))
            (.clickToggle t.id false now3)).scheduled = []))
    ∧ (∀ (s : SysState) (e : Event), distinctKeys s.pendingCompletionTimers →
        distinctKeys ((step s e).pendingCompletionTimers)) := by
  refine ⟨?_, ?_, ?_, ?_⟩
  · intro s taskId t0 hf
    unfold handleDeleteTask
    rw [hf]
    dsimp only
    rcases hlk : lookupKey s.pendingCompletionTimers taskId with _ | n0
    · simp only [hlk]
      refine ⟨trivial, ?_, ?_⟩
      · intro nn hnn
        cases hnn
      · intro hnodup
        exact removeFirstWithId_no_id _ _ hnodup
    · simp only [hlk]
      refine ⟨lookupKey_eraseKey _ _, ?_, ?_⟩
      · intro nn hnn p hp
        have hn0 : n0 = nn := Option.some.inj hnn
        rw [← hn0]
        have := (List.mem_filter.mp hp).2
        simpa using this
      · intro hnodup
        exact removeFirstWithId_no_id _ _ hnodup
  · intro s timerId now h
    unfold fireTimer
    rcases hfs : s.scheduled.find? (fun p => p.1 = timerId) with _ | p0
    · simp only [hfs]
    · simp only [hfs]
      obtain ⟨tid, taskId⟩ := p0
      dsimp only
      have hp0 := List.mem_of_find?_eq_some hfs
      have hpt := List.find?_some hfs
      have habs : ∀ u ∈ s.tasks, u.id ≠ taskId := by
        intro u hu
        exact h (tid, taskId) hp0 (by simpa using hpt) u hu
      have hnone : s.tasks.find? (fun u => u.id = taskId) = none :=
        List.find?_eq_none.mpr (by
          intro x hx
          simpa using habs x hx)
      simp only [hnone]
  · intro t templates ct cd af n now1 now2 now3 hc
    simp [step, handleToggleComplete, fireTimer, updateFirstWithId, setKey,
      eraseKey, lookupKey, List.find?, hc]
  · intro s e h
    cases e with
    | clickToggle taskId cardCompleting now =>
      show distinctKeys
        (handleToggleComplete s taskId cardCompleting now).pendingCompletionTimers
      unfold handleToggleComplete
      split
      · exact h
      · split
        · exact distinctKeys_setKey _ _ _ h
        · exact h
    | clickDelete taskId =>
      show distinctKeys (handleDeleteTask s taskId).pendingCompletionTimers
      unfold handleDeleteTask
      split
      · exact h
      · dsimp only
        rcases hlk : lookupKey s.pendingCompletionTimers taskId with _ | n0
        · simp only [hlk]
          exact h
        · simp only [hlk]
          exact distinctKeys_eraseKey _ _ h
    | timerFire timerId now =>
      show distinctKeys (fireTimer s timerId now).pendingCompletionTimers
      unfold fireTimer
      split
      · exact h
      · dsimp only
        split
        · exact distinctKeys_eraseKey _ _ h
        · exact distinctKeys_eraseKey _ _ h
    | addTask content newId now =>
      show distinctKeys (handleAddTask s content newId now).pendingCompletionTimers
      unfold handleAddTask
      split
      · exact h
      · split
        · exact h
        · exact h
    | deleteTemplate name =>
      have := deleteTemplate_timers s name
      show distinctKeys (deleteTemplateFromState s name).pendingCompletionTimers
      rw [this]
      exact h

theorem claim_c6_witness :
    (step (step (step
        (⟨[demoTask], [], none, none, "all", "tasks", [], [], 5⟩ : SysState)
        (.clickToggle demoTask.id false "A")) (.timerFire 5 "B"))
      (.clickToggle demoTask.id false "C")).pendingCompletionTimers = [] :=
  (claim_c6_pending_timers.2.2.1 demoTask [] none none "all" 5 "A" "B" "C"
    rfl).2.2.1

end Taskdoit
